import Mathlib

/-!
A verification development for the extract-tool repository (wechat_extract.py
and app.py).  The Python functions are shallowly embedded as Lean definitions:
pure string manipulation becomes functions on String / List Char, the
side-effecting pipeline (HTTP fetch, filesystem writes, the HTML parser and
the html2text converter) is parameterised by an explicit environment record,
and the filesystem is threaded as an explicit list of existing paths.
-/

namespace ExtractTool

/-! ## Character classes (Python regex classes used by wechat_extract.py) -/

/-- Python whitespace as used by str.strip and the regex class \s
(restricted to its ASCII part: space, tab, newline, carriage return,
vertical tab, form feed). -/
def isPyWs (c : Char) : Bool :=
  c = ' ' || c = '\t' || c = '\n' || c = '\r' || c = Char.ofNat 11 || c = Char.ofNat 12

/-- The path-hostile character class of safe_filename:  [\\/:*?"<>|]  . -/
def isHostile (c : Char) : Bool :=
  c = '\\' || c = '/' || c = ':' || c = '*' || c = '?' || c = '"' ||
  c = '<' || c = '>' || c = '|'

/-! ## List-of-characters utilities mirroring Python string methods -/

/-- Drop leading characters satisfying p (Python str.lstrip for p). -/
def lstripL (p : Char → Bool) (l : List Char) : List Char := l.dropWhile p

/-- Drop trailing characters satisfying p (Python str.rstrip for p). -/
def rstripL (p : Char → Bool) (l : List Char) : List Char :=
  (l.reverse.dropWhile p).reverse

/-- Python str.strip on a character list. -/
def stripL (l : List Char) : List Char := rstripL isPyWs (lstripL isPyWs l)

/-- Python str.strip on a String. -/
def stripPy (s : String) : String := String.mk (stripL s.toList)

/-- Replace every maximal run of characters satisfying p by the single
character r; this is re.sub of the class-plus pattern.  The flag records
whether the previous character was inside a run. -/
def collapseAux (p : Char → Bool) (r : Char) : Bool → List Char → List Char
  | _, [] => []
  | inRun, c :: cs =>
    if p c then
      if inRun then collapseAux p r true cs
      else r :: collapseAux p r true cs
    else c :: collapseAux p r false cs

/-- re.sub with the one-or-more-of-class pattern replaced by r. -/
def collapse (p : Char → Bool) (r : Char) (l : List Char) : List Char :=
  collapseAux p r false l

/-! ## safe_filename (wechat_extract.py lines 44-50) -/

/-- The sanitization core of safe_filename: strip, replace runs of
path-hostile characters by an underscore, collapse whitespace runs to a
single space, and cap the length at 120 with a trailing rstrip. -/
def sanitizeCore (s : String) : List Char :=
  let l0 := stripL s.toList
  let l1 := collapse isHostile '_' l0
  let l2 := collapse isPyWs ' ' l1
  if l2.length > 120 then rstripL isPyWs (l2.take 120) else l2

/-- safe_filename from wechat_extract.py: the sanitization core with the
generic fallback name when the sanitized result is empty. -/
def safe_filename (s : String) : String :=
  if sanitizeCore s = [] then "wechat_article" else String.mk (sanitizeCore s)

/-! ## Decimal rendering of naturals (Python str(i) inside the f-string
of the collision loop) -/

/-- Little-endian decimal digit characters of n, with a structural fuel
argument so the definition reduces in the kernel.  With fuel above n the
result is the full digit list. -/
def natDigitsRevAux : Nat → Nat → List Char
  | 0, _ => []
  | fuel + 1, n =>
    if n < 10 then [Nat.digitChar n]
    else Nat.digitChar (n % 10) :: natDigitsRevAux fuel (n / 10)

/-- Decimal rendering of a natural number, as Python str would print it. -/
def natRepr (n : Nat) : String := String.mk (natDigitsRevAux (n + 1) n).reverse

/-- Decode a little-endian decimal digit-character list back to a natural. -/
def decodeRev : List Char → Nat
  | [] => 0
  | c :: cs => (c.toNat - 48) + 10 * decodeRev cs

/-! ## Collision resolution of download_image (wechat_extract.py 172-177) -/

/-- The suffixed candidate path f-string of the collision loop:
base plus underscore plus the decimal counter plus the extension. -/
def candidateName (base ext : String) (i : Nat) : String :=
  base ++ "_" ++ natRepr i ++ ext

/-- The while-loop of download_image with an explicit fuel bound; the loop
keeps incrementing the counter while the candidate path exists.  With fuel
above the size of the filesystem the fuel never runs out. -/
def loopFresh (fs : List String) (base ext : String) : Nat → Nat → String
  | 0, i => candidateName base ext i
  | fuel + 1, i =>
    if candidateName base ext i ∈ fs then loopFresh fs base ext fuel (i + 1)
    else candidateName base ext i

/-- Collision resolution of download_image: keep the original path if it
does not exist yet, otherwise append an incrementing numeric suffix between
the base name and the extension until an unused path is found. -/
def resolveCollision (fs : List String) (p0 base ext : String) : String :=
  if p0 ∈ fs then loopFresh fs base ext (fs.length + 1) 1 else p0

/-! ## urllib.parse, the fragment used by wechat_extract.py

The image-normalization loop of extract_article and the filename
derivation of download_image call urljoin / urlparse from the Python
standard library; the definitions below model CPython's urllib.parse
(urlsplit, urlunsplit, urljoin) on the scheme set it hard-codes. -/

/-- Prefix test on strings via the underlying character lists. -/
def strStarts (pre s : String) : Bool := pre.toList.isPrefixOf s.toList

/-- CPython urlsplit removes tab, carriage return and newline. -/
def removeUnsafeChars (s : String) : String :=
  String.mk (s.toList.filter (fun c => !(c = '\t' || c = '\r' || c = '\n')))

/-- The scheme_chars set of urllib.parse. -/
def isSchemeChar (c : Char) : Bool :=
  c.isAlpha || c.isDigit || c = '+' || c = '-' || c = '.'

/-- Scan for a scheme delimiter: the first colon, with only scheme
characters before it.  Mirrors the find-colon-then-verify loop of
urlsplit. -/
def splitSchemeAux (acc : List Char) : List Char → Option (List Char × List Char)
  | [] => none
  | c :: cs =>
    if c = ':' then some (acc.reverse, cs)
    else if isSchemeChar c then splitSchemeAux (c :: acc) cs
    else none

/-- Split off a scheme when the URL has one (first character an ASCII
letter, scheme characters up to a colon). -/
def splitScheme (l : List Char) : Option (List Char × List Char) :=
  match l with
  | [] => none
  | c0 :: cs => if c0.isAlpha then splitSchemeAux [c0] cs else none

/-- A character ending the netloc portion. -/
def isNetlocEnd (c : Char) : Bool := c = '/' || c = '?' || c = '#'

/-- Split at the first occurrence of a character, dropping it (Python
str.split with maxsplit one). -/
def splitFirst (sep : Char) : List Char → Option (List Char × List Char)
  | [] => none
  | x :: xs =>
    if x = sep then some ([], xs)
    else (splitFirst sep xs).map (fun p => (x :: p.1, p.2))

/-- The five components produced by urllib.parse.urlsplit. -/
structure SplitUrl where
  scheme : String
  netloc : String
  path : String
  query : String
  fragment : String
deriving Repr, DecidableEq

/-- urllib.parse.urlsplit with allow_fragments true (the only form the
repository exercises); the bracketed-IPv6 validity check is omitted. -/
def urlsplit (url : String) (defaultScheme : String) : SplitUrl :=
  let l := (removeUnsafeChars url).toList
  let sr : String × List Char :=
    match splitScheme l with
    | some (sc, r) => (String.mk (sc.map Char.toLower), r)
    | none => (defaultScheme, l)
  let nr : List Char × List Char :=
    if ['/', '/'].isPrefixOf sr.2 then (sr.2.drop 2).span (fun c => !isNetlocEnd c)
    else ([], sr.2)
  let rf : List Char × List Char :=
    match splitFirst '#' nr.2 with
    | some (a, b) => (a, b)
    | none => (nr.2, [])
  let pq : List Char × List Char :=
    match splitFirst '?' rf.1 with
    | some (a, b) => (a, b)
    | none => (rf.1, [])
  ⟨sr.1, String.mk nr.1, String.mk pq.1, String.mk pq.2, String.mk rf.2⟩

/-- urllib.parse.urlunsplit. -/
def urlunsplit (u : SplitUrl) : String :=
  let url0 := u.path
  let url1 :=
    if u.netloc ≠ "" ∨ (url0 ≠ "" ∧ strStarts "//" url0) then
      "//" ++ u.netloc ++ (if url0 ≠ "" ∧ ¬(strStarts "/" url0 = true) then "/" ++ url0 else url0)
    else url0
  let url2 := if u.scheme ≠ "" then u.scheme ++ ":" ++ url1 else url1
  let url3 := if u.query ≠ "" then url2 ++ "?" ++ u.query else url2
  if u.fragment ≠ "" then url3 ++ "#" ++ u.fragment else url3

/-- The uses_relative scheme list of urllib.parse. -/
def uses_relative : List String :=
  ["", "ftp", "http", "gopher", "nntp", "imap", "wais", "file", "https",
   "shttp", "mms", "prospero", "rtsp", "rtspu", "sftp", "svn", "svn+ssh",
   "ws", "wss"]

/-- The uses_netloc scheme list of urllib.parse. -/
def uses_netloc : List String :=
  ["", "ftp", "http", "gopher", "nntp", "telnet", "imap", "wais", "file",
   "mms", "https", "shttp", "snews", "prospero", "rtsp", "rtspu", "rsync",
   "svn", "svn+ssh", "sftp", "nfs", "git", "git+ssh", "ws", "wss"]

/-- Python str.split on a single separator character. -/
def splitChar (sep : Char) : List Char → List (List Char)
  | [] => [[]]
  | c :: cs =>
    match splitChar sep cs with
    | [] => [[]]
    | h :: t => if c = sep then [] :: h :: t else (c :: h) :: t

/-- Split a string on slashes (Python path.split of the slash). -/
def splitSlash (s : String) : List String := (splitChar '/' s.toList).map String.mk

/-- Python slash-join of path segments. -/
def joinSlash : List String → String
  | [] => ""
  | [a] => a
  | a :: rest => a ++ "/" ++ joinSlash rest

/-- The assignment of filter to the middle slice in urljoin: keep the
first and last segment, drop empty segments in between. -/
def filterMidTail : List String → List String
  | [] => []
  | [a] => [a]
  | a :: rest => if a = "" then filterMidTail rest else a :: filterMidTail rest

/-- filter applied to segments with first and last kept. -/
def filterMiddle : List String → List String
  | [] => []
  | [a] => [a]
  | a :: rest => a :: filterMidTail rest

/-- One step of the dot-segment resolution loop of urljoin: double dot
pops (silently on empty), single dot is skipped, anything else appends. -/
def resolveSeg (acc : List String) (seg : String) : List String :=
  if seg = ".." then acc.dropLast else if seg = "." then acc else acc ++ [seg]

/-- The relative-reference branch of urljoin (scheme matches, no netloc
on the reference): inherit missing components and merge the paths with
dot-segment resolution. -/
def urljoinRel (b u : SplitUrl) : String :=
  let netloc := if u.scheme ∈ uses_netloc then b.netloc else u.netloc
  if u.path = "" then
    urlunsplit ⟨u.scheme, netloc, b.path,
      if u.query = "" then b.query else u.query, u.fragment⟩
  else
    let base_parts0 := splitSlash b.path
    let base_parts :=
      if base_parts0.getLastD "" ≠ "" then base_parts0.dropLast else base_parts0
    let segments :=
      if strStarts "/" u.path then splitSlash u.path
      else filterMiddle (base_parts ++ splitSlash u.path)
    let resolved0 := segments.foldl resolveSeg []
    let resolved :=
      if segments.getLastD "" = "." ∨ segments.getLastD "" = ".." then resolved0 ++ [""]
      else resolved0
    let joined := joinSlash resolved
    urlunsplit ⟨u.scheme, netloc, if joined = "" then "/" else joined, u.query, u.fragment⟩

/-- urljoin after both sides are split: return the reference as is when
its scheme differs from the base's scheme or cannot carry relative
references; keep its own components when it has a netloc; otherwise
resolve relatively. -/
def urljoinSplit (b u : SplitUrl) (url : String) : String :=
  if u.scheme ≠ b.scheme ∨ u.scheme ∉ uses_relative then url
  else if u.scheme ∈ uses_netloc ∧ u.netloc ≠ "" then urlunsplit u
  else urljoinRel b u

/-- urllib.parse.urljoin. -/
def urljoin (base url : String) : String :=
  if base = "" then url
  else if url = "" then base
  else urljoinSplit (urlsplit base "") (urlsplit url (urlsplit base "").scheme) url

/-! ## The parsed markup tree (BeautifulSoup Tag / NavigableString) -/

/-- A parse-tree node: an element with tag name, attribute association
list and children, or a text node. -/
inductive Node where
  | elem (tag : String) (attrs : List (String × String)) (children : List Node)
  | text (s : String)

/-- Attribute lookup (Tag.get). -/
def getAttr (attrs : List (String × String)) (k : String) : Option String :=
  match attrs with
  | [] => none
  | (k2, v) :: rest => if k2 = k then some v else getAttr rest k

/-- Attribute assignment (Tag setitem): replace the value when the key is
present, append otherwise. -/
def setAttr (attrs : List (String × String)) (k v : String) :
    List (String × String) :=
  match attrs with
  | [] => [(k, v)]
  | (k2, v2) :: rest => if k2 = k then (k, v) :: rest else (k2, v2) :: setAttr rest k v

/-- The attribute list of a node (empty for text nodes). -/
def Node.attrsOf : Node → List (String × String)
  | .elem _ a _ => a
  | .text _ => []

/-- The children of a node (empty for text nodes). -/
def Node.childrenOf : Node → List Node
  | .elem _ _ c => c
  | .text _ => []

mutual

/-- The stripped nonempty strings of one node (Tag.get_text with strip
collects these from every descendant string, in document order). -/
def textPiecesNode : Node → List String
  | .text s => if stripPy s = "" then [] else [stripPy s]
  | .elem _ _ c => textPiecesList c

/-- The stripped nonempty descendant strings of a node list, in document
order. -/
def textPiecesList : List Node → List String
  | [] => []
  | n :: ns => textPiecesNode n ++ textPiecesList ns

end

/-- Tag.get_text(strip=True): concatenation of the stripped nonempty
descendant strings. -/
def Node.getTextStrip : Node → String
  | .text s => stripPy s
  | .elem _ _ c => String.join (textPiecesList c)

mutual

/-- Pre-order search at one node: the node itself is checked before its
descendants; this is the traversal order bs4 find uses.  Text nodes never
match the tag/attribute filters the repository uses. -/
def findInNode (p : Node → Bool) : Node → Option Node
  | .text _ => none
  | .elem t a c =>
    if p (.elem t a c) then some (.elem t a c) else findInList p c

/-- Pre-order search over a node list for the first element satisfying
the predicate. -/
def findInList (p : Node → Bool) : List Node → Option Node
  | [] => none
  | n :: ns =>
    match findInNode p n with
    | some r => some r
    | none => findInList p ns

end

/-- Tag.find: first matching element among the descendants. -/
def Node.findDesc (p : Node → Bool) : Node → Option Node
  | .text _ => none
  | .elem _ _ c => findInList p c

mutual

/-- Tag.find_all collection at one node, pre-order. -/
def findAllNode (p : Node → Bool) : Node → List Node
  | .text _ => []
  | .elem t a c =>
    (if p (.elem t a c) then [Node.elem t a c] else []) ++ findAllList p c

/-- Tag.find_all: all matching elements among a node list, pre-order. -/
def findAllList (p : Node → Bool) : List Node → List Node
  | [] => []
  | n :: ns => findAllNode p n ++ findAllList p ns

end

mutual

/-- Tag.string: the single descendant string reachable through
single-child tags, if any. -/
def Node.stringOf : Node → Option String
  | .text s => some s
  | .elem _ _ c => stringOfSingle c

/-- Tag.string of a children list: defined only through a single child. -/
def stringOfSingle : List Node → Option String
  | [c] => Node.stringOf c
  | _ => none

end

/-- Substring test on character lists. -/
def containsSub (sub : List Char) : List Char → Bool
  | [] => sub.isEmpty
  | c :: rest => sub.isPrefixOf (c :: rest) || containsSub sub rest

/-- Substring test on strings (the class regexes of wechat_extract.py all
have the dot-star wrapped shape, so matching them is substring
containment). -/
def strContains (s sub : String) : Bool := containsSub sub.toList s.toList

/-- Does the class attribute match a dot-star wrapped class regex with
the given needle. -/
def classContains (attrs : List (String × String)) (needle : String) : Bool :=
  match getAttr attrs "class" with
  | some v => strContains v needle
  | none => false

/-! ## The date regexes of extract_article -/

/-- One-or-two digit group at the head with arbitrary continuation: a
single digit suffices. -/
def dayAt : List Char → Bool
  | c :: _ => c.isDigit
  | [] => false

/-- The tail of the numeric date regex (one or two digits, a dash or
slash, one or two digits), matched at the head. -/
def monthDayAt : List Char → Bool
  | m1 :: rest =>
    m1.isDigit &&
      (match rest with
       | s :: rest2 =>
         (((s = '-' || s = '/') && dayAt rest2) ||
          (match rest2 with
           | s2 :: rest3 => s.isDigit && (s2 = '-' || s2 = '/') && dayAt rest3
           | [] => false))
       | [] => false)
  | [] => false

/-- The numeric date regex head: four digits, a dash or slash, then the
month-day tail, matched at the head of the list. -/
def dateNumAt : List Char → Bool
  | y1 :: y2 :: y3 :: y4 :: s1 :: rest =>
    y1.isDigit && y2.isDigit && y3.isDigit && y4.isDigit &&
      (s1 = '-' || s1 = '/') && monthDayAt rest
  | _ => false

/-- The CJK year-month date regex, matched at the head of the list. -/
def cnDateAt : List Char → Bool
  | y1 :: y2 :: y3 :: y4 :: n :: m1 :: rest =>
    y1.isDigit && y2.isDigit && y3.isDigit && y4.isDigit && n = '年' && m1.isDigit &&
      (match rest with
       | c :: rest2 =>
         c = '月' ||
           (c.isDigit && (match rest2 with
             | c2 :: _ => c2 = '月'
             | [] => false))
       | [] => false)
  | _ => false

/-- re.search: does the pattern match at some position. -/
def anySuffix (p : List Char → Bool) : List Char → Bool
  | [] => p []
  | c :: rest => p (c :: rest) || anySuffix p rest

/-- The date-likeness test of extract_article: the numeric date regex or
the CJK date regex found anywhere in the text. -/
def dateLike (s : String) : Bool :=
  anySuffix (fun l => dateNumAt l || cnDateAt l) s.toList

/-! ## Element predicates of extract_article -/

/-- The title-zone heading: an h2 whose class matches the
rich_media_title pattern. -/
def isTitleH2 (n : Node) : Bool :=
  match n with
  | .elem t a _ => t = "h2" && classContains a "rich_media_title"
  | .text _ => false

/-- A meta element with property og:title. -/
def isOgMetaProp (n : Node) : Bool :=
  match n with
  | .elem t a _ => t = "meta" && getAttr a "property" = some "og:title"
  | .text _ => false

/-- A meta element with name og:title. -/
def isOgMetaName (n : Node) : Bool :=
  match n with
  | .elem t a _ => t = "meta" && getAttr a "name" = some "og:title"
  | .text _ => false

/-- The document title element. -/
def isTitleTag (n : Node) : Bool :=
  match n with
  | .elem t _ _ => t = "title"
  | .text _ => false

/-- The meta zone: class matches rich_media_meta_list or
rich_media_meta_text. -/
def isMetaZone (n : Node) : Bool :=
  match n with
  | .elem _ a _ =>
    classContains a "rich_media_meta_list" || classContains a "rich_media_meta_text"
  | .text _ => false

/-- Author-tag class patterns. -/
def isAuthorTag (n : Node) : Bool :=
  match n with
  | .elem _ a _ =>
    classContains a "rich_media_meta_text" ||
      classContains a "rich_media_meta_nickname" || classContains a "nickname"
  | .text _ => false

/-- Date-tag class patterns. -/
def isDateTag (n : Node) : Bool :=
  match n with
  | .elem _ a _ =>
    classContains a "rich_media_meta_text" ||
      classContains a "rich_media_meta_time" || classContains a "js_date"
  | .text _ => false

/-- A span or anchor element. -/
def isSpanA (n : Node) : Bool :=
  match n with
  | .elem t _ _ => t = "span" || t = "a"
  | .text _ => false

/-- The content container by id. -/
def isJsContent (n : Node) : Bool :=
  match n with
  | .elem _ a _ => getAttr a "id" = some "js_content"
  | .text _ => false

/-- The content container by class pattern. -/
def isRichContent (n : Node) : Bool :=
  match n with
  | .elem _ a _ => classContains a "rich_media_content"
  | .text _ => false

/-- The document body element. -/
def isBody (n : Node) : Bool :=
  match n with
  | .elem t _ _ => t = "body"
  | .text _ => false

/-! ## Title extraction (wechat_extract.py lines 63-76) -/

/-- The title-zone candidate: the stripped text of the first h2 whose
class matches the rich_media_title pattern (the value the first title
block assigns when truthy; empty otherwise). -/
def titleCand1 (doc : Node) : String :=
  match doc.findDesc isTitleH2 with
  | some h => h.getTextStrip
  | none => ""

/-- The og:title meta element: by property, else by name (the or-chain of
the two find calls). -/
def ogTitleNode (doc : Node) : Option Node :=
  (doc.findDesc isOgMetaProp).orElse (fun _ => doc.findDesc isOgMetaName)

/-- The second title block: assign the stripped og:title content when the
meta element exists and its content attribute is truthy, keep the
incoming title otherwise. -/
def titleFromOg (doc : Node) (title : String) : String :=
  match ogTitleNode doc with
  | some m =>
    match getAttr m.attrsOf "content" with
    | some c => if c ≠ "" then stripPy c else title
    | none => title
  | none => title

/-- The third title block: assign the stripped document title string when
the title element exists and its string is truthy, keep the incoming
title otherwise. -/
def titleFromDocTitle (doc : Node) (title : String) : String :=
  match doc.findDesc isTitleTag with
  | some t =>
    match t.stringOf with
    | some s => if s ≠ "" then stripPy s else title
    | none => title
  | none => title

/-- The title selection of extract_article (lines 63-76): the title-zone
h2 text when nonempty, else the og:title meta content when truthy, else
the stripped document title string; each later block runs only while the
title is still empty. -/
def extractTitle (doc : Node) : String :=
  let title0 := titleCand1 doc
  let title1 := if title0 ≠ "" then title0 else titleFromOg doc title0
  if title1 ≠ "" then title1 else titleFromDocTitle doc title1

/-- The og:title candidate of the precedence chain. -/
def titleCand2 (doc : Node) : String := titleFromOg doc ""

/-- The document-title candidate of the precedence chain. -/
def titleCand3 (doc : Node) : String := titleFromDocTitle doc ""

/-! ## Author and date extraction (wechat_extract.py lines 79-105) -/

/-- The span-scanning loop of extract_article over the meta zone:
nonempty texts matching the date regexes fill the date slot, others fill
the author slot, first match per slot, never overwriting. -/
def scanSpans : List Node → String → String → String × String
  | [], a, d => (a, d)
  | sp :: rest, a, d =>
    let txt := sp.getTextStrip
    if txt = "" then scanSpans rest a d
    else if dateLike txt then scanSpans rest a (if d = "" then txt else d)
    else scanSpans rest (if a = "" then txt else a) d

/-- The author value the class-pattern lookup assigns: the stripped text
of the first descendant matching the author-tag patterns (empty when the
tag is missing or its text is empty, in which case the assignment guard
leaves the slot empty). -/
def classAuthorText (zone : Node) : String :=
  match zone.findDesc isAuthorTag with
  | some t => t.getTextStrip
  | none => ""

/-- The date value the class-pattern lookup assigns. -/
def classDateText (zone : Node) : String :=
  match zone.findDesc isDateTag with
  | some t => t.getTextStrip
  | none => ""

/-- Author and date extraction of extract_article: class-pattern lookup
for author and date tags inside the meta zone first, then the span scan
when either slot is still empty. -/
def extractAuthorDate (doc : Node) : String × String :=
  match doc.findDesc isMetaZone with
  | none => ("", "")
  | some zone =>
    let author0 := classAuthorText zone
    let date0 := classDateText zone
    if author0 = "" ∨ date0 = "" then
      scanSpans (findAllList isSpanA zone.childrenOf) author0 date0
    else (author0, date0)

/-! ## Content selection and image normalization (lines 107-132) -/

/-- The content region of extract_article: the children of the
id-selected node, else the children of the class-pattern node, else the
whole body element, else nothing. -/
def contentNodes (doc : Node) : List Node :=
  match (doc.findDesc isJsContent).orElse (fun _ => doc.findDesc isRichContent) with
  | some n => n.childrenOf
  | none =>
    match doc.findDesc isBody with
    | some b => [b]
    | none => []

/-- The image reference chosen by the normalization loop: the first
truthy value among data-src, data-original and src (the Python or-chain;
missing and empty attributes both fall through), none when all three are
missing or empty. -/
def chooseSrcA (a : List (String × String)) : Option String :=
  let f := fun k =>
    match getAttr a k with
    | some s => if s = "" then none else some s
    | none => none
  match f "data-src" with
  | some s => some s
  | none =>
    match f "data-original" with
    | some s => some s
    | none => f "src"

mutual

/-- The image normalization of extract_article at one node: an image
element contributes its resolved reference (written back into src)
before the images of its descendants. -/
def normImgNode (base : String) : Node → List String × Node
  | .text s => ([], .text s)
  | .elem t a c =>
    let rc := normImgList base c
    if t = "img" then
      match chooseSrcA a with
      | none => (rc.1, .elem t a rc.2)
      | some s =>
        let abs := urljoin base s
        (abs :: rc.1, .elem t (setAttr a "src" abs) rc.2)
    else (rc.1, .elem t a rc.2)

/-- The image normalization loop of extract_article over a node list:
collect the resolved absolute reference of every image element in
document order and write it back into the src attribute. -/
def normImgList (base : String) : List Node → List String × List Node
  | [] => ([], [])
  | n :: ns =>
    let r1 := normImgNode base n
    let r2 := normImgList base ns
    (r1.1 ++ r2.1, r1.2 :: r2.2)

end

/-! ## Serialization (str of a soup; the html-body wrapper the lxml
re-parse adds around the content carries no content and is omitted) -/

/-- Attribute serialization. -/
def renderAttrs : List (String × String) → String
  | [] => ""
  | (k, v) :: rest => " " ++ k ++ "=\"" ++ v ++ "\"" ++ renderAttrs rest

/-- Void elements serialized self-closing. -/
def voidTag (t : String) : Bool :=
  t = "img" || t = "br" || t = "hr" || t = "meta" || t = "link" || t = "input"

mutual

/-- Markup serialization of one node. -/
def renderNode : Node → String
  | .text s => s
  | .elem t a c =>
    if voidTag t && c.isEmpty then "<" ++ t ++ renderAttrs a ++ "/>"
    else "<" ++ t ++ renderAttrs a ++ ">" ++ renderList c ++ "</" ++ t ++ ">"

/-- Markup serialization of a node list. -/
def renderList : List Node → String
  | [] => ""
  | n :: ns => renderNode n ++ renderList ns

end

/-! ## The Article record (the dict extract_article returns) -/

/-- The record extract_article builds. -/
structure Article where
  url : String
  title : String
  author : String
  date : String
  content_html : String
  content_markdown : String
  images : List String
deriving Repr, DecidableEq

/-- extract_article from wechat_extract.py: title, author and date by
the fallback rules, content region by the id-class-body chain, image
references resolved against the source URL and written back, markdown
produced by the external html2text converter conv. -/
def extractArticle (conv : String → String) (doc : Node) (url : String) : Article :=
  let title := extractTitle doc
  let ad := extractAuthorDate doc
  let norm := normImgList url (contentNodes doc)
  let contentHtmlFixed := renderList norm.2
  { url := url
    title := title
    author := ad.1
    date := ad.2
    content_html := contentHtmlFixed
    content_markdown := conv contentHtmlFixed
    images := norm.1 }

/-! ## Comparison definitions and concrete documents for the extraction
claims -/

/-- Left string if nonempty, right otherwise (the never-overwrite slot
combinator). -/
def orElseStr (a b : String) : String := if a = "" then b else a

/-- The first nonempty date-like text of a list. -/
def firstDateText : List String → String
  | [] => ""
  | t :: rest => if t ≠ "" ∧ dateLike t = true then t else firstDateText rest

/-- The first nonempty non-date-like text of a list. -/
def firstAuthorText : List String → String
  | [] => ""
  | t :: rest => if t ≠ "" ∧ ¬dateLike t = true then t else firstAuthorText rest

/-- Any element node. -/
def isAnyElem (n : Node) : Bool :=
  match n with
  | .elem _ _ _ => true
  | .text _ => false

/-- The author-date assignment rule as the specification words it,
defined from the specification for comparison with the implementation:
examine the text-bearing descendant elements of the meta zone in document
order, classify each nonempty text by the date pattern alone, and fill
each still-empty slot with the first candidate of its kind. -/
def claimAuthorDate (doc : Node) : String × String :=
  match doc.findDesc isMetaZone with
  | none => ("", "")
  | some zone => scanSpans (findAllList isAnyElem zone.childrenOf) "" ""

/-- A document whose meta zone holds a single date-valued element whose
class matches the author-tag patterns. -/
def docMetaEx : Node :=
  .elem "[document]" [] [.elem "html" [] [.elem "body" [] [
    .elem "div" [("class", "rich_media_meta_list")] [
      .elem "span" [("class", "rich_media_meta_text")] [.text "2024-01-01"]]]]]

/-- A document whose meta zone has no class-matched author or date tag,
so the span scan assigns both slots. -/
def docMetaEx2 : Node :=
  .elem "[document]" [] [.elem "div" [("class", "rich_media_meta_list")] [
    .elem "span" [] [.text "AuthorName"],
    .elem "span" [] [.text "2024-01-02"]]]

/-- A document carrying a title-zone heading, an og:title meta and a
document title element. -/
def docTitleEx : Node :=
  .elem "[document]" [] [.elem "html" [] [
    .elem "head" [] [
      .elem "meta" [("property", "og:title"), ("content", "Other Title")] [],
      .elem "title" [] [.text "Doc Title"]],
    .elem "body" [] [
      .elem "h2" [("class", "rich_media_title")] [.text "  Real Title  "]]]]

/-- A document with no title zone, no content containers and no body. -/
def docEmptyEx : Node := .elem "[document]" [] []

mutual

/-- The attribute lists of the image elements below one node, pre-order. -/
def imgAttrsNode : Node → List (List (String × String))
  | .text _ => []
  | .elem t a c => (if t = "img" then [a] else []) ++ imgAttrsList c

/-- The attribute lists of the image elements of a node list, in document
order. -/
def imgAttrsList : List Node → List (List (String × String))
  | [] => []
  | n :: ns => imgAttrsNode n ++ imgAttrsList ns

end

/-! ## posixpath and os.path, the fragment used by wechat_extract.py -/

/-- Suffix test on strings via the underlying character lists. -/
def strEnds (suf s : String) : Bool := suf.toList.isSuffixOf s.toList

/-- Index of the last character satisfying the predicate (str.rfind). -/
def rlastIdxAux (pred : Char → Bool) : List Char → Nat → Option Nat → Option Nat
  | [], _, acc => acc
  | c :: cs, i, acc => rlastIdxAux pred cs (i + 1) (if pred c then some i else acc)

/-- str.rfind of a character class, as an optional index. -/
def rlastIdx (pred : Char → Bool) (l : List Char) : Option Nat :=
  rlastIdxAux pred l 0 none

/-- First index of a character (str.find). -/
def findIdxCh (c : Char) : List Char → Option Nat
  | [] => none
  | x :: xs => if x = c then some 0 else (findIdxCh c xs).map (· + 1)

/-- First index of a character at or after a start position. -/
def findCharFrom (c : Char) (start : Nat) (l : List Char) : Option Nat :=
  (findIdxCh c (l.drop start)).map (· + start)

/-- os.path.basename: everything after the last slash. -/
def pathBasename (p : String) : String :=
  String.mk ((splitChar '/' p.toList).getLastD [])

/-- os.path.splitext: split off the extension at the last dot of the
final path component, unless that component consists of leading dots
only. -/
def splitextStr (p : String) : String × String :=
  let l := p.toList
  let sepIndex : Int :=
    match rlastIdx (fun c => c = '/') l with
    | some i => (i : Int)
    | none => -1
  let dotIndex : Int :=
    match rlastIdx (fun c => c = '.') l with
    | some i => (i : Int)
    | none => -1
  if dotIndex > sepIndex then
    let mid := (l.take dotIndex.toNat).drop (sepIndex + 1).toNat
    if mid.any (fun c => ¬(c = '.')) then
      (String.mk (l.take dotIndex.toNat), String.mk (l.drop dotIndex.toNat))
    else (p, "")
  else (p, "")

/-- posixpath.join for two components. -/
def pjoin (a b : String) : String :=
  if strStarts "/" b then b
  else if a = "" ∨ strEnds "/" a then a ++ b
  else a ++ "/" ++ b

/-- posixpath.normpath: collapse repeated separators and resolve dot and
double-dot components. -/
def normpath (p : String) : String :=
  if p = "" then "."
  else
    let initialSlashes : Nat :=
      if strStarts "/" p then
        if strStarts "//" p ∧ ¬(strStarts "///" p = true) then 2 else 1
      else 0
    let comps := splitSlash p
    let newComps := comps.foldl (fun acc comp =>
      if comp = "" ∨ comp = "." then acc
      else if ¬(comp = "..") ∨ (initialSlashes = 0 ∧ acc = []) ∨
          (acc ≠ [] ∧ acc.getLastD "" = "..") then acc ++ [comp]
      else acc.dropLast) []
    let res := String.mk (List.replicate initialSlashes '/') ++ joinSlash newComps
    if res = "" then "." else res

/-- posixpath.abspath relative to an explicit working directory. -/
def abspath (cwd p : String) : String := normpath (pjoin cwd p)

/-- Length of the longest common prefix of two segment lists
(os.path.commonprefix on two lists). -/
def commonPrefixLen : List String → List String → Nat
  | a :: as, b :: bs => if a = b then 1 + commonPrefixLen as bs else 0
  | _, _ => 0

/-- posixpath.relpath relative to an explicit working directory. -/
def relpath (cwd path start : String) : String :=
  let startList := (splitSlash (abspath cwd start)).filter (fun x => ¬(x = ""))
  let pathList := (splitSlash (abspath cwd path)).filter (fun x => ¬(x = ""))
  let i := commonPrefixLen startList pathList
  let relList := List.replicate (startList.length - i) ".." ++ pathList.drop i
  if relList = [] then "." else joinSlash relList

/-- Python str.replace of the backslash by the slash (a single-character
substring, hence a character map). -/
def replaceBackslash (s : String) : String :=
  String.mk (s.toList.map (fun c => if c = '\\' then '/' else c))

/-- urlparse(url).path: the urlsplit path with any parameter suffix of
its last segment removed. -/
def urlparsePath (url : String) : String :=
  let pa := (urlsplit url "").path
  let l := pa.toList
  if l.contains ';' then
    if l.contains '/' then
      let rs := match rlastIdx (fun c => c = '/') l with
        | some i => i
        | none => 0
      match findCharFrom ';' rs l with
      | some i => String.mk (l.take i)
      | none => pa
    else
      match findIdxCh ';' l with
      | some i => String.mk (l.take i)
      | none => pa
  else pa

/-! ## The effectful environment of the pipeline

The network, the filesystem write calls, the HTML parser and the
html2text converter are external to the extractor's logic; they enter the
embedding as an explicit environment of functions.  A failing call
carries the message of the raised exception; write success is keyed by
the target path (filesystem failures such as an unwritable directory or
a full disk do not depend on the written bytes).  The set of existing
paths consulted by os.path.exists is threaded explicitly. -/

/-- The external operations wechat_extract.py calls. -/
structure Env where
  fetch : String → Except String String
  parse : String → Node
  conv : String → String
  imgGet : String → Except String String
  imgWrite : String → Except String Unit
  write : String → Except String Unit
  makedirs : String → Except String Unit
  cwd : String

/-- The dict process_url returns; optional fields model key presence. -/
structure TaskResult where
  url : String
  ok : Bool
  path : Option String
  title : Option String
  error : Option String
deriving Repr, DecidableEq

/-- The failure record of process_url. -/
def failResult (url e : String) : TaskResult :=
  { url := url, ok := false, path := none, title := none, error := some e }

/-- The filename download_image derives before collision resolution:
the basename of the URL path (generic name when empty), the extension
inferred from the content type when missing, then sanitization. -/
def downloadFilename (url ct : String) : String :=
  let b := pathBasename (urlparsePath url)
  let filename0 := if b = "" then "image" else b
  let filename1 :=
    if (splitextStr filename0).2 = "" then
      if strContains ct "jpeg" then filename0 ++ ".jpg"
      else if strContains ct "png" then filename0 ++ ".png"
      else if strContains ct "gif" then filename0 ++ ".gif"
      else filename0
    else filename0
  safe_filename filename1

/-- The path download_image writes to: the derived filename joined under
the images directory, with the collision loop applied. -/
def downloadPath (fs : List String) (url outdir ct : String) : String :=
  let outpath0 := pjoin outdir (downloadFilename url ct)
  let be := splitextStr outpath0
  resolveCollision fs outpath0 be.1 be.2

/-- download_image from wechat_extract.py (lines 152-185): fetch the
image, derive and sanitize a filename, resolve collisions with the
incrementing suffix loop, write the bytes, and return the written path;
the enclosing handler turns any failure into the empty string. -/
def downloadImage (env : Env) (fs : List String) (url outdir : String) :
    String × List String :=
  match env.imgGet url with
  | .error _ => ("", fs)
  | .ok ct =>
    match env.imgWrite (downloadPath fs url outdir ct) with
    | .error _ => ("", fs)
    | .ok _ => (downloadPath fs url outdir ct, downloadPath fs url outdir ct :: fs)

mutual

/-- The image-localization loop of save_article at one node: an image
element with a truthy src has its reference downloaded; on success the
src is rewritten to the slash-normalized path relative to the output
directory, on failure the element is left untouched. -/
def localizeNode (env : Env) (outdir imagesOutdir : String) (fs : List String) :
    Node → Node × List String
  | .text s => (.text s, fs)
  | .elem t a c =>
    if t = "img" then
      match getAttr a "src" with
      | none =>
        let rc := localizeList env outdir imagesOutdir fs c
        (.elem t a rc.1, rc.2)
      | some s =>
        if s = "" then
          let rc := localizeList env outdir imagesOutdir fs c
          (.elem t a rc.1, rc.2)
        else
          let dl := downloadImage env fs s imagesOutdir
          let a2 :=
            if dl.1 = "" then a
            else setAttr a "src" (replaceBackslash (relpath env.cwd dl.1 outdir))
          let rc := localizeList env outdir imagesOutdir dl.2 c
          (.elem t a2 rc.1, rc.2)
    else
      let rc := localizeList env outdir imagesOutdir fs c
      (.elem t a rc.1, rc.2)

/-- The image-localization loop over a node list, in document order,
threading the set of written files. -/
def localizeList (env : Env) (outdir imagesOutdir : String) (fs : List String) :
    List Node → List Node × List String
  | [] => ([], fs)
  | n :: ns =>
    let r1 := localizeNode env outdir imagesOutdir fs n
    let r2 := localizeList env outdir imagesOutdir r1.2 ns
    (r1.1 :: r2.1, r2.2)

end

/-- The article-file write of save_article: open and write the rendered
content at the target path, propagating a write failure. -/
def writeStep (env : Env) (outpath : String) (fs2 : List String) :
    Except String String × List String :=
  match env.write outpath with
  | .error e => (.error e, fs2)
  | .ok _ => (.ok outpath, fs2)

/-- save_article from wechat_extract.py (lines 188-252): create the
output directories, localize images when requested (non-fatally), and
write the rendered article under the sanitized title with the
format-specific extension; an unknown format raises the unsupported
format error.  The written path is returned; the content regeneration
through the converter does not influence the outcome record. -/
def saveArticle (env : Env) (fs : List String) (item : Article)
    (outdir fmt : String) (downloadImages : Bool) :
    Except String String × List String :=
  let safe_title := safe_filename (if item.title = "" then "wechat_article" else item.title)
  match env.makedirs outdir with
  | .error e => (.error e, fs)
  | .ok _ =>
    match (if downloadImages then env.makedirs (pjoin outdir "images") else .ok ()) with
    | .error e => (.error e, fs)
    | .ok _ =>
      let cf : String × List String :=
        if downloadImages ∧ item.images ≠ [] then
          let lz := localizeList env outdir (pjoin outdir "images") fs
            (env.parse item.content_html).childrenOf
          (renderList lz.1, lz.2)
        else (item.content_html, fs)
      if fmt = "md" then writeStep env (pjoin outdir (safe_title ++ ".md")) cf.2
      else if fmt = "html" then writeStep env (pjoin outdir (safe_title ++ ".html")) cf.2
      else if fmt = "json" then writeStep env (pjoin outdir (safe_title ++ ".json")) cf.2
      else (.error "unsupported format", cf.2)

/-- process_url from wechat_extract.py (lines 255-262): run fetch,
extract and save, and convert any escaped failure into a failed record;
a success record carries the written path and the extracted title. -/
def processUrl (env : Env) (fs : List String) (url outdir fmt : String)
    (downloadImages : Bool) : TaskResult × List String :=
  match env.fetch url with
  | .error e => (failResult url e, fs)
  | .ok html =>
    let item := extractArticle env.conv (env.parse html) url
    let sv := saveArticle env fs item outdir fmt downloadImages
    match sv.1 with
    | .error e => (failResult url e, sv.2)
    | .ok saved =>
      ({ url := url, ok := true, path := some saved, title := some item.title,
         error := none }, sv.2)

/-- run_tasks from app.py (lines 92-103): one process_url task per URL,
all records collected (the completion order of the thread pool is not
part of the record contents; the sequential fold exhibits one record per
submitted URL). -/
def runTasks (env : Env) (fs : List String) (urls : List String)
    (outdir fmt : String) (downloadImages : Bool) : List TaskResult × List String :=
  match urls with
  | [] => ([], fs)
  | u :: us =>
    let r := processUrl env fs u outdir fmt downloadImages
    let rs := runTasks env r.2 us outdir fmt downloadImages
    (r.1 :: rs.1, rs.2)

/-- All error messages the environment can produce are nonempty (every
exception the Python libraries raise here stringifies nonempty). -/
def Env.errorsNonempty (env : Env) : Prop :=
  (∀ u e, env.fetch u = .error e → e ≠ "") ∧
  (∀ p e, env.write p = .error e → e ≠ "") ∧
  (∀ p e, env.makedirs p = .error e → e ≠ "")

/-- Every image fetch fails. -/
def Env.imgAllFail (env : Env) : Prop :=
  ∀ u, ∃ e, env.imgGet u = Except.error e

/-- A batch environment: one URL fetches, the other is rejected with the
HTTP error message of raise_for_status. -/
def envEx : Env :=
  { fetch := fun u =>
      if u = "http://good" then Except.ok "<html></html>"
      else Except.error "404 Client Error"
    parse := fun _ => Node.elem "[document]" [] []
    conv := id
    imgGet := fun _ => Except.error "network error"
    imgWrite := fun _ => Except.ok ()
    write := fun _ => Except.ok ()
    makedirs := fun _ => Except.ok ()
    cwd := "/w" }

/-- A parsed page holding one lazy-loaded image in the content region. -/
def docImgEx : Node :=
  .elem "[document]" [] [.elem "div" [("id", "js_content")] [
    .elem "img" [("data-src", "http://img.example/a.png")] []]]

/-- An environment whose every image download times out. -/
def envImgFail : Env :=
  { fetch := fun _ => Except.ok "<html>"
    parse := fun _ => docImgEx
    conv := id
    imgGet := fun _ => Except.error "timeout"
    imgWrite := fun _ => Except.ok ()
    write := fun _ => Except.ok ()
    makedirs := fun _ => Except.ok ()
    cwd := "/w" }

/-- A parsed page with an image, for the disk-full scenario. -/
def docImgEx2 : Node :=
  .elem "[document]" [] [.elem "div" [("id", "js_content")] [
    .elem "img" [("src", "http://img.example/b.jpg")] []]]

/-- An environment whose image fetches succeed but whose every image
write fails with a filesystem error. -/
def envDiskFull : Env :=
  { fetch := fun _ => Except.ok "<html>"
    parse := fun _ => docImgEx2
    conv := id
    imgGet := fun _ => Except.ok "image/jpeg"
    imgWrite := fun _ => Except.error "[Errno 28] No space left on device"
    write := fun _ => Except.ok ()
    makedirs := fun _ => Except.ok ()
    cwd := "/w" }


/-! ## Theorems -/

/-! ### Lemmas about collapse -/

theorem mem_collapseAux {p : Char → Bool} {r : Char} :
    ∀ {b : Bool} {l : List Char} {c : Char}, c ∈ collapseAux p r b l →
      c = r ∨ (c ∈ l ∧ p c = false) := by
  intro b l
  induction l generalizing b with
  | nil => intro c h; simp [collapseAux] at h
  | cons x xs ih =>
    intro c h
    cases hx : p x with
    | true =>
      rw [collapseAux, hx] at h
      simp only [if_true] at h
      cases b with
      | true =>
        rcases ih h with h1 | h2
        · exact Or.inl h1
        · exact Or.inr ⟨List.mem_cons_of_mem _ h2.1, h2.2⟩
      | false =>
        rcases List.mem_cons.mp h with h1 | h1
        · exact Or.inl h1
        · rcases ih h1 with h2 | h2
          · exact Or.inl h2
          · exact Or.inr ⟨List.mem_cons_of_mem _ h2.1, h2.2⟩
    | false =>
      rw [collapseAux, hx] at h
      simp only [Bool.false_eq_true, if_false] at h
      rcases List.mem_cons.mp h with h1 | h1
      · subst h1; exact Or.inr ⟨List.mem_cons_self _ _, hx⟩
      · rcases ih h1 with h2 | h2
        · exact Or.inl h2
        · exact Or.inr ⟨List.mem_cons_of_mem _ h2.1, h2.2⟩

theorem collapseAux_true_head {p : Char → Bool} {r : Char} :
    ∀ {l : List Char} {c : Char} {cs : List Char},
      collapseAux p r true l = c :: cs → p c = false := by
  intro l
  induction l with
  | nil => intro c cs h; simp [collapseAux] at h
  | cons x xs ih =>
    intro c cs h
    cases hx : p x with
    | true =>
      rw [collapseAux, hx] at h
      simp only [if_true] at h
      exact ih h
    | false =>
      rw [collapseAux, hx] at h
      simp only [Bool.false_eq_true, if_false] at h
      cases h
      exact hx

theorem chain'_collapseAux {p : Char → Bool} {r : Char} :
    ∀ {l : List Char} {b : Bool},
      List.Chain' (fun a c => ¬(p a = true ∧ p c = true)) (collapseAux p r b l) := by
  intro l
  induction l with
  | nil => intro b; simp [collapseAux]
  | cons x xs ih =>
    intro b
    cases hx : p x with
    | true =>
      cases b with
      | true =>
        rw [collapseAux, hx]
        simp only [if_true]
        exact ih
      | false =>
        rw [collapseAux, hx]
        simp only [if_true, Bool.false_eq_true, if_false]
        rw [List.chain'_cons']
        refine ⟨?_, ih⟩
        intro y hy
        intro hcontra
        have hpy : p y = false := by
          cases hh : collapseAux p r true xs with
          | nil => rw [hh] at hy; simp at hy
          | cons z zs =>
            rw [hh] at hy
            simp only [List.head?_cons, Option.mem_def, Option.some.injEq] at hy
            subst hy
            exact collapseAux_true_head hh
        rw [hpy] at hcontra
        exact absurd hcontra.2 (by simp)
    | false =>
      rw [collapseAux, hx]
      simp only [Bool.false_eq_true, if_false]
      rw [List.chain'_cons']
      refine ⟨?_, ih⟩
      intro y hy hcontra
      rw [hx] at hcontra
      exact absurd hcontra.1 (by simp)

theorem chain'_of_none {q : Char → Bool} {l : List Char}
    (h : ∀ c ∈ l, q c = false) :
    List.Chain' (fun a c => ¬(q a = true ∧ q c = true)) l := by
  induction l with
  | nil => simp
  | cons x xs ih =>
    rw [List.chain'_cons']
    refine ⟨?_, ih fun c hc => h c (List.mem_cons_of_mem _ hc)⟩
    intro y _ hcontra
    have := h x (List.mem_cons_self _ _)
    rw [this] at hcontra
    exact absurd hcontra.1 (by simp)

theorem dropWhile_suffix' (p : Char → Bool) (l : List Char) :
    l.dropWhile p <:+ l := by
  induction l with
  | nil => simp
  | cons x xs ih =>
    rw [List.dropWhile]
    cases hx : p x with
    | true =>
      simp only [if_true]
      exact ih.trans (List.suffix_cons x xs)
    | false =>
      simp only [Bool.false_eq_true, if_false]
      exact List.suffix_refl _

theorem prefix_rstripL (p : Char → Bool) (l : List Char) :
    rstripL p l <+: l := by
  unfold rstripL
  have h1 : l.reverse.dropWhile p <:+ l.reverse := dropWhile_suffix' p l.reverse
  have h2 : (l.reverse.dropWhile p).reverse <+: l.reverse.reverse :=
    List.reverse_prefix.mpr h1
  simpa using h2

theorem length_rstripL (p : Char → Bool) (l : List Char) :
    (rstripL p l).length ≤ l.length :=
  (prefix_rstripL p l).sublist.length_le

theorem chain'_prefix {R : Char → Char → Prop} {l l2 : List Char}
    (h : List.Chain' R l2) (hp : l <+: l2) : List.Chain' R l := by
  rcases hp with ⟨t, rfl⟩
  exact h.left_of_append

/-! ### C6: safe_filename sanitization properties -/

/-- C6: for every title string, the sanitized filename produced by
safe_filename contains no path-hostile character, has no two adjacent
whitespace characters (runs are collapsed), has length at most 120, is
non-empty, and falls back to the fixed generic name exactly when the
sanitization core yields the empty string. -/
theorem safe_filename_spec (s : String) :
    (∀ c ∈ (safe_filename s).toList, isHostile c = false)
    ∧ List.Chain' (fun a c => ¬(isPyWs a = true ∧ isPyWs c = true))
        (safe_filename s).toList
    ∧ (safe_filename s).length ≤ 120
    ∧ safe_filename s ≠ ""
    ∧ (sanitizeCore s = [] → safe_filename s = "wechat_article") := by
  have hcorePre : sanitizeCore s <+:
      collapse isPyWs ' ' (collapse isHostile '_' (stripL s.toList)) := by
    unfold sanitizeCore
    by_cases h : (collapse isPyWs ' ' (collapse isHostile '_' (stripL s.toList))).length > 120
    · simp only [h, if_true]
      exact (prefix_rstripL isPyWs _).trans (List.take_prefix _ _)
    · simp only [h, if_false]
      exact List.prefix_refl _
  have hcore : ∀ c ∈ sanitizeCore s, isHostile c = false := by
    intro c hc
    have hc2 : c ∈ collapse isPyWs ' ' (collapse isHostile '_' (stripL s.toList)) :=
      hcorePre.sublist.subset hc
    rcases mem_collapseAux hc2 with h1 | h2
    · subst h1; decide
    · rcases mem_collapseAux h2.1 with h3 | h4
      · subst h3; decide
      · exact h4.2
  have hchain : List.Chain' (fun a c => ¬(isPyWs a = true ∧ isPyWs c = true))
      (sanitizeCore s) :=
    chain'_prefix chain'_collapseAux hcorePre
  have hlen : (sanitizeCore s).length ≤ 120 ∨
      sanitizeCore s = collapse isPyWs ' ' (collapse isHostile '_' (stripL s.toList)) := by
    unfold sanitizeCore
    by_cases h : (collapse isPyWs ' ' (collapse isHostile '_' (stripL s.toList))).length > 120
    · left
      simp only [h, if_true]
      calc (rstripL isPyWs ((collapse isPyWs ' '
            (collapse isHostile '_' (stripL s.toList))).take 120)).length
          ≤ ((collapse isPyWs ' '
              (collapse isHostile '_' (stripL s.toList))).take 120).length :=
            length_rstripL _ _
        _ ≤ 120 := by simp
    · simp only [h, if_false]
      left
      omega
  have hwsNone : ∀ c ∈ ("wechat_article" : String).toList, isPyWs c = false := by decide
  have hhostNone : ∀ c ∈ ("wechat_article" : String).toList, isHostile c = false := by decide
  refine ⟨?_, ?_, ?_, ?_, ?_⟩
  · intro c hc
    unfold safe_filename at hc
    by_cases h : sanitizeCore s = []
    · simp only [h, if_true] at hc
      exact hhostNone c hc
    · simp only [h, if_false] at hc
      exact hcore c hc
  · unfold safe_filename
    by_cases h : sanitizeCore s = []
    · simp only [h, if_true]
      exact chain'_of_none hwsNone
    · simp only [h, if_false]
      exact hchain
  · unfold safe_filename
    by_cases h : sanitizeCore s = []
    · simp only [h, if_true]; decide
    · simp only [h, if_false]
      show (String.mk (sanitizeCore s)).length ≤ 120
      have : (String.mk (sanitizeCore s)).length = (sanitizeCore s).length := rfl
      rw [this]
      rcases hlen with h1 | h1
      · exact h1
      · unfold sanitizeCore at h1 ⊢
        by_cases h2 : (collapse isPyWs ' '
            (collapse isHostile '_' (stripL s.toList))).length > 120
        · simp only [h2, if_true]
          calc (rstripL isPyWs ((collapse isPyWs ' '
                (collapse isHostile '_' (stripL s.toList))).take 120)).length
              ≤ ((collapse isPyWs ' '
                  (collapse isHostile '_' (stripL s.toList))).take 120).length :=
                length_rstripL _ _
            _ ≤ 120 := by simp
        · simp only [h2, if_false]
          omega
  · unfold safe_filename
    by_cases h : sanitizeCore s = []
    · simp only [h, if_true]; decide
    · simp only [h, if_false]
      intro hcontra
      apply h
      have : (String.mk (sanitizeCore s)).data = ("" : String).data := by rw [hcontra]
      simpa using this
  · intro h
    unfold safe_filename
    simp only [h, if_true]

/-- Witness for C6 at a concrete hostile-character input. -/
theorem safe_filename_spec_witness :
    safe_filename "a\\b:c**  d" ≠ "" :=
  (safe_filename_spec "a\\b:c**  d").2.2.2.1

theorem digitChar_toNat : ∀ n : Nat, n < 10 → (Nat.digitChar n).toNat = 48 + n := by
  decide

theorem decodeRev_natDigitsRevAux :
    ∀ fuel n, n < fuel → decodeRev (natDigitsRevAux fuel n) = n := by
  intro fuel
  induction fuel with
  | zero => intro n h; omega
  | succ f ih =>
    intro n h
    by_cases h10 : n < 10
    · rw [natDigitsRevAux]
      simp only [h10, if_true]
      rw [decodeRev, decodeRev, digitChar_toNat n h10]
      omega
    · rw [natDigitsRevAux]
      simp only [h10, if_false]
      rw [decodeRev]
      have hdiv : n / 10 < f := by
        have h1 : n / 10 < n := Nat.div_lt_self (by omega) (by omega)
        omega
      rw [ih (n / 10) hdiv]
      have hmod : n % 10 < 10 := Nat.mod_lt _ (by omega)
      rw [digitChar_toNat (n % 10) hmod]
      omega

theorem natRepr_injective : Function.Injective natRepr := by
  intro m n h
  have hdata : (natDigitsRevAux (m + 1) m).reverse = (natDigitsRevAux (n + 1) n).reverse :=
    congrArg String.data h
  have hlists : natDigitsRevAux (m + 1) m = natDigitsRevAux (n + 1) n :=
    List.reverse_injective hdata
  have hm := decodeRev_natDigitsRevAux (m + 1) m (by omega)
  have hn := decodeRev_natDigitsRevAux (n + 1) n (by omega)
  rw [← hm, ← hn, hlists]

theorem candidateName_injective (base ext : String) :
    Function.Injective (candidateName base ext) := by
  intro i j h
  unfold candidateName at h
  have hdata : ((base ++ "_").data ++ (natRepr i).data) ++ ext.data =
      ((base ++ "_").data ++ (natRepr j).data) ++ ext.data := by
    have h1 := congrArg String.data h
    simpa [String.data_append, List.append_assoc] using h1
  have h2 := List.append_cancel_right hdata
  have h3 := List.append_cancel_left h2
  exact natRepr_injective (by apply String.ext; exact h3)

theorem exists_fresh_candidate (fs : List String) (base ext : String) :
    ∃ j, 1 ≤ j ∧ j < fs.length + 2 ∧ candidateName base ext j ∉ fs := by
  by_contra hcon
  push_neg at hcon
  have hall : ∀ k < fs.length + 1, candidateName base ext (k + 1) ∈ fs := by
    intro k hk
    exact hcon (k + 1) (by omega) (by omega)
  set L := (List.range (fs.length + 1)).map (fun k => candidateName base ext (k + 1)) with hL
  have hnodup : L.Nodup := by
    apply List.Nodup.map
    · intro a c hac
      have := candidateName_injective base ext hac
      omega
    · exact List.nodup_range _
  have hsub : L ⊆ fs := by
    intro x hx
    rw [hL] at hx
    rcases List.mem_map.mp hx with ⟨k, hk, rfl⟩
    exact hall k (List.mem_range.mp hk)
  have hlen : L.length = fs.length + 1 := by simp [hL]
  have hcard1 : L.toFinset.card = L.length := List.toFinset_card_of_nodup hnodup
  have hcard2 : L.toFinset ⊆ fs.toFinset := by
    intro x hx
    rw [List.mem_toFinset] at hx ⊢
    exact hsub hx
  have hcard3 : fs.toFinset.card ≤ fs.length := fs.toFinset_card_le
  have := Finset.card_le_card hcard2
  omega

theorem loopFresh_spec (fs : List String) (base ext : String) :
    ∀ fuel i, (∃ j, i ≤ j ∧ j < i + fuel ∧ candidateName base ext j ∉ fs) →
      ∃ j, i ≤ j ∧ j < i + fuel ∧
        loopFresh fs base ext fuel i = candidateName base ext j ∧
        candidateName base ext j ∉ fs ∧
        ∀ k, i ≤ k → k < j → candidateName base ext k ∈ fs := by
  intro fuel
  induction fuel with
  | zero =>
    intro i h
    rcases h with ⟨j, h1, h2, _⟩
    omega
  | succ f ih =>
    intro i h
    by_cases hc : candidateName base ext i ∈ fs
    · rw [loopFresh]
      simp only [hc, if_true]
      have hnext : ∃ j, i + 1 ≤ j ∧ j < (i + 1) + f ∧ candidateName base ext j ∉ fs := by
        rcases h with ⟨j, h1, h2, h3⟩
        refine ⟨j, ?_, by omega, h3⟩
        rcases Nat.eq_or_lt_of_le h1 with rfl | hlt
        · exact absurd hc h3
        · omega
      rcases ih (i + 1) hnext with ⟨j, h1, h2, h3, h4, h5⟩
      refine ⟨j, by omega, by omega, h3, h4, ?_⟩
      intro k hk1 hk2
      rcases Nat.eq_or_lt_of_le hk1 with rfl | hlt
      · exact hc
      · exact h5 k (by omega) hk2
    · rw [loopFresh]
      simp only [hc, if_false]
      exact ⟨i, Nat.le_refl _, by omega, rfl, hc, fun k hk1 hk2 => absurd hk2 (by omega)⟩

theorem resolveCollision_cases (fs : List String) (p0 base ext : String) :
    resolveCollision fs p0 base ext ∉ fs
    ∧ (p0 ∉ fs → resolveCollision fs p0 base ext = p0)
    ∧ (p0 ∈ fs → ∃ i, 1 ≤ i ∧
        resolveCollision fs p0 base ext = candidateName base ext i ∧
        candidateName base ext i ∉ fs ∧
        (∀ k, 1 ≤ k → k < i → candidateName base ext k ∈ fs))
    ∧ (p0 ∈ fs → resolveCollision fs p0 base ext ≠ p0) := by
  have hmain : p0 ∈ fs → ∃ i, 1 ≤ i ∧
      resolveCollision fs p0 base ext = candidateName base ext i ∧
      candidateName base ext i ∉ fs ∧
      (∀ k, 1 ≤ k → k < i → candidateName base ext k ∈ fs) := by
    intro hp
    rcases exists_fresh_candidate fs base ext with ⟨j, hj1, hj2, hj3⟩
    have hex : ∃ j, 1 ≤ j ∧ j < 1 + (fs.length + 1) ∧ candidateName base ext j ∉ fs :=
      ⟨j, hj1, by omega, hj3⟩
    rcases loopFresh_spec fs base ext (fs.length + 1) 1 hex with ⟨i, h1, h2, h3, h4, h5⟩
    refine ⟨i, h1, ?_, h4, h5⟩
    unfold resolveCollision
    simp only [hp, if_true]
    exact h3
  refine ⟨?_, ?_, hmain, ?_⟩
  · by_cases hp : p0 ∈ fs
    · rcases hmain hp with ⟨i, _, h3, h4, _⟩
      rw [h3]; exact h4
    · unfold resolveCollision
      simp only [hp, if_false]
      exact not_false
  · intro hp
    unfold resolveCollision
    simp only [hp, if_false]
  · intro hp
    rcases hmain hp with ⟨i, _, h3, h4, _⟩
    rw [h3]
    intro hcontra
    rw [hcontra] at h4
    exact h4 hp

/-- C7: the path chosen by the collision loop of download_image never
names an existing file (so no existing file is overwritten or lost); when
the initial path is free it is used as is, and when it exists the chosen
path appends the first free incrementing numeric suffix between the base
name and the extension; in particular a second save whose base path
collides with an existing file gets a suffixed name distinct from it. -/
theorem resolveCollision_spec (fs : List String) (p0 base ext : String) :
    resolveCollision fs p0 base ext ∉ fs
    ∧ (p0 ∉ fs → resolveCollision fs p0 base ext = p0)
    ∧ (p0 ∈ fs → ∃ i, 1 ≤ i ∧
        resolveCollision fs p0 base ext = candidateName base ext i ∧
        candidateName base ext i ∉ fs ∧
        (∀ k, 1 ≤ k → k < i → candidateName base ext k ∈ fs))
    ∧ (p0 ∈ fs → resolveCollision fs p0 base ext ≠ p0) :=
  resolveCollision_cases fs p0 base ext

/-- Witness for C7: a colliding save of out/a.jpg gets a numeric suffix. -/
theorem resolveCollision_spec_witness :
    ∃ i, 1 ≤ i ∧
      resolveCollision ["out/a.jpg"] "out/a.jpg" "out/a" ".jpg" =
        candidateName "out/a" ".jpg" i ∧
      candidateName "out/a" ".jpg" i ∉ ["out/a.jpg"] ∧
      (∀ k, 1 ≤ k → k < i → candidateName "out/a" ".jpg" k ∈ ["out/a.jpg"]) :=
  (resolveCollision_spec ["out/a.jpg"] "out/a.jpg" "out/a" ".jpg").2.2.1 (by simp)

example : urljoin "http://a/b/c" "d/e" = "http://a/b/d/e" := by decide

example : urljoin "https://mp.weixin.qq.com/s/abc" "/img/x.png" =
    "https://mp.weixin.qq.com/img/x.png" := by decide

example : urljoin "http://a/b/c" "../d" = "http://a/d" := by decide

example : urljoin "http://a/b" "http://c/d" = "http://c/d" := by decide

example : dateLike "2024-1-5" = true := by decide
example : dateLike "2024年12月" = true := by decide
example : dateLike "原创" = false := by decide

/-! ## C2: title precedence -/

theorem extractTitle_chain (doc : Node) :
    extractTitle doc =
      (if titleCand1 doc ≠ "" then titleCand1 doc
       else if titleCand2 doc ≠ "" then titleCand2 doc
       else titleCand3 doc) := by
  unfold extractTitle
  by_cases h1 : titleCand1 doc = ""
  · simp only [h1, ne_eq, not_true_eq_false, if_false]
    rw [show titleFromOg doc "" = titleCand2 doc from rfl]
    by_cases h2 : titleCand2 doc = ""
    · simp only [h2, ne_eq, not_true_eq_false, if_false]
      rw [show titleFromDocTitle doc "" = titleCand3 doc from rfl]
    · simp only [h2, ne_eq, not_false_eq_true, if_true]
  · simp only [h1, ne_eq, not_false_eq_true, if_true]

/-- C2: extract_article selects the title by the fixed precedence chain
in which the first nonempty candidate wins: the title-zone heading text,
then the og:title meta content, then the document title string; a
nonempty title-zone heading wins over both other candidates, and with no
title-zone heading a nonempty og:title candidate wins. -/
theorem extractTitle_spec (doc : Node) :
    extractTitle doc =
      (if titleCand1 doc ≠ "" then titleCand1 doc
       else if titleCand2 doc ≠ "" then titleCand2 doc
       else titleCand3 doc)
    ∧ (∀ h, doc.findDesc isTitleH2 = some h → h.getTextStrip ≠ "" →
        extractTitle doc = h.getTextStrip)
    ∧ (doc.findDesc isTitleH2 = none → titleCand2 doc ≠ "" →
        extractTitle doc = titleCand2 doc) := by
  refine ⟨extractTitle_chain doc, ?_, ?_⟩
  · intro h hfind hne
    have hc1 : titleCand1 doc = h.getTextStrip := by unfold titleCand1; rw [hfind]
    rw [extractTitle_chain doc, hc1, if_pos hne]
  · intro hnone hne2
    have hc1 : titleCand1 doc = "" := by unfold titleCand1; rw [hnone]
    rw [extractTitle_chain doc, hc1]
    simp only [ne_eq, not_true_eq_false, if_false, hne2, not_false_eq_true, if_true]

/-- Witness for C2: the title-zone heading wins over og:title and the
document title. -/
theorem extractTitle_spec_witness :
    extractTitle docTitleEx = "Real Title" := by
  have h := (extractTitle_spec docTitleEx).2.1
    (Node.elem "h2" [("class", "rich_media_title")] [Node.text "  Real Title  "])
    rfl (by decide)
  exact h.trans (by decide)

/-! ## C3: author and date assignment -/

theorem scanSpans_eq (l : List Node) : ∀ a d : String,
    scanSpans l a d =
      (orElseStr a (firstAuthorText (l.map Node.getTextStrip)),
       orElseStr d (firstDateText (l.map Node.getTextStrip))) := by
  induction l with
  | nil =>
    intro a d
    simp only [scanSpans, List.map_nil, firstAuthorText, firstDateText, orElseStr]
    by_cases ha : a = "" <;> by_cases hd : d = "" <;> simp [ha, hd]
  | cons sp rest ih =>
    intro a d
    by_cases h0 : sp.getTextStrip = ""
    · have hA : firstAuthorText (List.map Node.getTextStrip (sp :: rest)) =
          firstAuthorText (List.map Node.getTextStrip rest) := by
        simp only [List.map_cons]
        rw [firstAuthorText, if_neg]
        simp [h0]
      have hD : firstDateText (List.map Node.getTextStrip (sp :: rest)) =
          firstDateText (List.map Node.getTextStrip rest) := by
        simp only [List.map_cons]
        rw [firstDateText, if_neg]
        simp [h0]
      rw [scanSpans, if_pos h0, ih, hA, hD]
    · by_cases h1 : dateLike sp.getTextStrip = true
      · have hA : firstAuthorText (List.map Node.getTextStrip (sp :: rest)) =
            firstAuthorText (List.map Node.getTextStrip rest) := by
          simp only [List.map_cons]
          rw [firstAuthorText, if_neg]
          simp [h1]
        have hD : firstDateText (List.map Node.getTextStrip (sp :: rest)) =
            sp.getTextStrip := by
          simp only [List.map_cons]
          rw [firstDateText, if_pos ⟨h0, h1⟩]
        rw [scanSpans, if_neg h0, if_pos h1, ih, hA, hD]
        congr 1
        by_cases hd : d = ""
        · rw [if_pos hd, hd]
          simp [orElseStr, h0]
        · rw [if_neg hd]
          simp [orElseStr, hd]
      · have hA : firstAuthorText (List.map Node.getTextStrip (sp :: rest)) =
            sp.getTextStrip := by
          simp only [List.map_cons]
          rw [firstAuthorText, if_pos ⟨h0, h1⟩]
        have hD : firstDateText (List.map Node.getTextStrip (sp :: rest)) =
            firstDateText (List.map Node.getTextStrip rest) := by
          simp only [List.map_cons]
          rw [firstDateText, if_neg]
          simp [h1]
        rw [scanSpans, if_neg h0, if_neg h1, ih, hA, hD]
        congr 1
        by_cases ha : a = ""
        · rw [if_pos ha, ha]
          simp [orElseStr, h0]
        · rw [if_neg ha]
          simp [orElseStr, ha]

/-- Counterexample to C3 as stated: in this document the meta zone's only
text is date-like, so the described classification leaves the author slot
empty, but extract_article fills the author slot with the date text
through the class-pattern lookup that precedes the scan. -/
theorem extractAuthorDate_counterexample :
    extractAuthorDate docMetaEx = ("2024-01-01", "2024-01-01")
    ∧ claimAuthorDate docMetaEx = ("", "2024-01-01")
    ∧ dateLike "2024-01-01" = true
    ∧ extractAuthorDate docMetaEx ≠ claimAuthorDate docMetaEx := by
  refine ⟨rfl, rfl, by decide, by decide⟩

/-- C3 (amended): with no meta zone both slots stay empty; with a meta
zone, the author slot is the first nonempty class-matched author-tag
text, else the first nonempty non-date-like span text, and the date slot
is the first nonempty class-matched date-tag text, else the first
nonempty date-like span text; a filled slot is never overwritten, and
the classification-by-pattern rule of the claim governs exactly the span
scan that runs when a class lookup leaves a slot empty. -/
theorem extractAuthorDate_spec (doc : Node) :
    (doc.findDesc isMetaZone = none → extractAuthorDate doc = ("", "")) ∧
    (∀ zone, doc.findDesc isMetaZone = some zone →
      extractAuthorDate doc =
        (orElseStr (classAuthorText zone)
          (firstAuthorText ((findAllList isSpanA zone.childrenOf).map Node.getTextStrip)),
         orElseStr (classDateText zone)
          (firstDateText ((findAllList isSpanA zone.childrenOf).map Node.getTextStrip)))) ∧
    (∀ zone, doc.findDesc isMetaZone = some zone →
      classAuthorText zone = "" → classDateText zone = "" →
      extractAuthorDate doc = scanSpans (findAllList isSpanA zone.childrenOf) "" "") := by
  refine ⟨?_, ?_, ?_⟩
  · intro h
    unfold extractAuthorDate
    rw [h]
  · intro zone h
    unfold extractAuthorDate
    rw [h]
    show (if classAuthorText zone = "" ∨ classDateText zone = "" then
        scanSpans (findAllList isSpanA zone.childrenOf) (classAuthorText zone)
          (classDateText zone)
      else (classAuthorText zone, classDateText zone)) = _
    by_cases hcond : classAuthorText zone = "" ∨ classDateText zone = ""
    · rw [if_pos hcond, scanSpans_eq]
    · rw [if_neg hcond]
      push_neg at hcond
      simp [orElseStr, hcond.1, hcond.2]
  · intro zone h hA hD
    unfold extractAuthorDate
    rw [h]
    show (if classAuthorText zone = "" ∨ classDateText zone = "" then
        scanSpans (findAllList isSpanA zone.childrenOf) (classAuthorText zone)
          (classDateText zone)
      else (classAuthorText zone, classDateText zone)) = _
    rw [hA, hD, if_pos (Or.inl rfl)]

/-- Witness for C3 at a document where the span scan fills both slots. -/
theorem extractAuthorDate_spec_witness :
    extractAuthorDate docMetaEx2 = ("AuthorName", "2024-01-02") := by
  have h := (extractAuthorDate_spec docMetaEx2).2.2
    (Node.elem "div" [("class", "rich_media_meta_list")] [
      Node.elem "span" [] [Node.text "AuthorName"],
      Node.elem "span" [] [Node.text "2024-01-02"]])
    rfl rfl rfl
  exact h.trans (by decide)

/-! ## C4: totality and the content fallback chain -/

/-- C4: extract_article is total on the parsed document: it always
returns an Article record whose fields are the source URL, the selected
title, and the image list; the content region falls back from the
id-selected node to the class-pattern node to the whole body to nothing,
and with no candidate at all the serialized content markup is the empty
string. -/
theorem extractArticle_total_spec (conv : String → String) (doc : Node) (url : String) :
    (extractArticle conv doc url).url = url
    ∧ (extractArticle conv doc url).title = extractTitle doc
    ∧ (extractArticle conv doc url).images = (normImgList url (contentNodes doc)).1
    ∧ (∀ n, doc.findDesc isJsContent = some n → contentNodes doc = n.childrenOf)
    ∧ (doc.findDesc isJsContent = none →
        ∀ n, doc.findDesc isRichContent = some n → contentNodes doc = n.childrenOf)
    ∧ (doc.findDesc isJsContent = none → doc.findDesc isRichContent = none →
        ∀ b, doc.findDesc isBody = some b → contentNodes doc = [b])
    ∧ (doc.findDesc isJsContent = none → doc.findDesc isRichContent = none →
        doc.findDesc isBody = none →
        contentNodes doc = [] ∧ (extractArticle conv doc url).content_html = "") := by
  refine ⟨rfl, rfl, rfl, ?_, ?_, ?_, ?_⟩
  · intro n h
    unfold contentNodes
    rw [h]
    rfl
  · intro h1 n h2
    unfold contentNodes
    simp only [h1, h2, Option.orElse]
  · intro h1 h2 b h3
    unfold contentNodes
    simp only [h1, h2, h3, Option.orElse]
  · intro h1 h2 h3
    have hc : contentNodes doc = [] := by
      unfold contentNodes
      simp only [h1, h2, h3, Option.orElse]
    refine ⟨hc, ?_⟩
    show renderList (normImgList url (contentNodes doc)).2 = ""
    rw [hc]
    rfl

/-- Witness for C4 at a document with no content candidates at all. -/
theorem extractArticle_total_spec_witness :
    contentNodes docEmptyEx = [] ∧ (extractArticle id docEmptyEx "u").content_html = "" :=
  (extractArticle_total_spec id docEmptyEx "u").2.2.2.2.2.2 rfl rfl rfl

/-! ## C5: image reference normalization -/

theorem normImg_eqs (base : String) :
    (∀ n : Node,
      (normImgNode base n).1 =
        (imgAttrsNode n).filterMap (fun a => (chooseSrcA a).map (urljoin base))
      ∧ imgAttrsNode (normImgNode base n).2 =
        (imgAttrsNode n).map (fun a =>
          match chooseSrcA a with
          | none => a
          | some s => setAttr a "src" (urljoin base s)))
    ∧ (∀ ns : List Node,
      (normImgList base ns).1 =
        (imgAttrsList ns).filterMap (fun a => (chooseSrcA a).map (urljoin base))
      ∧ imgAttrsList (normImgList base ns).2 =
        (imgAttrsList ns).map (fun a =>
          match chooseSrcA a with
          | none => a
          | some s => setAttr a "src" (urljoin base s))) := by
  refine normImgNode.mutual_induct base _ _ ?_ ?_ ?_ ?_ ?_ ?_
  · intro s
    simp [normImgNode, imgAttrsNode]
  · intro a c hc ih
    simp [normImgNode, imgAttrsNode, hc, List.filterMap_append, List.map_append,
      ih.1, ih.2]
  · intro a c s hc ih
    simp [normImgNode, imgAttrsNode, hc, List.filterMap_append, List.map_append,
      ih.1, ih.2]
  · intro t a c ht ih
    simp [normImgNode, imgAttrsNode, ht, ih.1, ih.2]
  · simp [normImgList, imgAttrsList]
  · intro n ns ih1 ih2
    simp [normImgList, imgAttrsList, List.filterMap_append, List.map_append,
      ih1.1, ih1.2, ih2.1, ih2.2]

/-- C5: the image normalization loop of extract_article collects, in
document order, the resolved reference of every image element that has a
truthy data-src, data-original or src attribute (in that fixed priority),
skips elements with none, appends the urljoin-resolved absolute value to
the images list with no deduplication, and writes that value back into
each element's src attribute. -/
theorem normalize_images_spec (base : String) (ns : List Node) :
    (normImgList base ns).1 =
      (imgAttrsList ns).filterMap (fun a => (chooseSrcA a).map (urljoin base))
    ∧ imgAttrsList (normImgList base ns).2 =
      (imgAttrsList ns).map (fun a =>
        match chooseSrcA a with
        | none => a
        | some s => setAttr a "src" (urljoin base s))
    ∧ (∀ a v, getAttr a "data-src" = some v → v ≠ "" → chooseSrcA a = some v)
    ∧ (∀ a v, (getAttr a "data-src" = none ∨ getAttr a "data-src" = some "") →
        getAttr a "data-original" = some v → v ≠ "" → chooseSrcA a = some v)
    ∧ (∀ a v, (getAttr a "data-src" = none ∨ getAttr a "data-src" = some "") →
        (getAttr a "data-original" = none ∨ getAttr a "data-original" = some "") →
        getAttr a "src" = some v → v ≠ "" → chooseSrcA a = some v)
    ∧ (∀ a, (getAttr a "data-src" = none ∨ getAttr a "data-src" = some "") →
        (getAttr a "data-original" = none ∨ getAttr a "data-original" = some "") →
        (getAttr a "src" = none ∨ getAttr a "src" = some "") →
        chooseSrcA a = none) := by
  refine ⟨((normImg_eqs base).2 ns).1, ((normImg_eqs base).2 ns).2, ?_, ?_, ?_, ?_⟩
  · intro a v h hv
    unfold chooseSrcA
    simp [h, hv]
  · intro a v h1 h2 hv
    unfold chooseSrcA
    rcases h1 with h1 | h1 <;> simp [h1, h2, hv]
  · intro a v h1 h2 h3 hv
    unfold chooseSrcA
    rcases h1 with h1 | h1 <;> rcases h2 with h2 | h2 <;> simp [h1, h2, h3, hv]
  · intro a h1 h2 h3
    unfold chooseSrcA
    rcases h1 with h1 | h1 <;> rcases h2 with h2 | h2 <;> rcases h3 with h3 | h3 <;>
      simp [h1, h2, h3]

/-- Witness for C5: data-src wins over src and resolves against the base. -/
theorem normalize_images_spec_witness :
    chooseSrcA [("data-src", "https://img.example/a.png"), ("src", "b.png")] =
      some "https://img.example/a.png" :=
  (normalize_images_spec "https://mp.weixin.qq.com/s/x" []).2.2.1
    [("data-src", "https://img.example/a.png"), ("src", "b.png")]
    "https://img.example/a.png" rfl (by decide)

/-! ## C8: absolute-URL behavior of urljoin -/

/-- Counterexample to C8 as stated: urljoin re-serializes an absolute
reference whose scheme matches the base's scheme, so an uppercase-scheme
absolute URL is not returned unchanged. -/
theorem urljoin_absolute_counterexample :
    (urlsplit "HTTP://c/d" "").scheme = "http"
    ∧ (urlsplit "HTTP://c/d" "").netloc = "c"
    ∧ urljoin "http://a/b" "HTTP://c/d" = "http://c/d"
    ∧ urljoin "http://a/b" "HTTP://c/d" ≠ "HTTP://c/d" := by decide

/-- C8 (amended): an absolute reference is returned unchanged when its
scheme differs from the base's scheme or cannot carry relative
references; when the schemes agree and the reference carries a netloc,
urljoin returns the re-serialization of the reference's split components,
hence the reference itself exactly when that re-serialization is the
identity on it (as for ordinary lowercase http and https URLs). -/
theorem urljoin_absolute_spec (base s : String) (hs : s ≠ "") :
    ((urlsplit s (urlsplit base "").scheme).scheme ≠ (urlsplit base "").scheme ∨
       (urlsplit s (urlsplit base "").scheme).scheme ∉ uses_relative →
      urljoin base s = s)
    ∧ ((urlsplit s (urlsplit base "").scheme).scheme = (urlsplit base "").scheme →
       (urlsplit s (urlsplit base "").scheme).scheme ∈ uses_relative →
       (urlsplit s (urlsplit base "").scheme).scheme ∈ uses_netloc →
       (urlsplit s (urlsplit base "").scheme).netloc ≠ "" →
       urlunsplit (urlsplit s (urlsplit base "").scheme) = s →
       urljoin base s = s) := by
  constructor
  · intro h
    by_cases hb : base = ""
    · rw [urljoin, if_pos hb]
    · rw [urljoin, if_neg hb, if_neg hs, urljoinSplit, if_pos h]
  · intro h1 h2 h3 h4 h5
    by_cases hb : base = ""
    · rw [urljoin, if_pos hb]
    · rw [urljoin, if_neg hb, if_neg hs, urljoinSplit,
        if_neg (by push_neg; exact ⟨h1, h2⟩), if_pos ⟨h3, h4⟩, h5]

/-- Witness for C8 at a reference whose scheme differs from the base's. -/
theorem urljoin_absolute_spec_witness :
    urljoin "http://a/b" "https://c/d" = "https://c/d" :=
  (urljoin_absolute_spec "http://a/b" "https://c/d" (by decide)).1 (Or.inl (by decide))

example : pathBasename (urlparsePath "https://img.example/pic/a.png?tp=webp") = "a.png" := by
  decide

example : relpath "/w" "out/images/a.jpg" "out" = "images/a.jpg" := by decide

/-! ## Helper lemmas about the pipeline -/

theorem append_ne_empty_right (a b : String) (hb : b ≠ "") : a ++ b ≠ "" := by
  intro h
  apply hb
  have hd : a.data ++ b.data = [] := congrArg String.data h
  have hb2 : b.data = [] := (List.append_eq_nil.mp hd).2
  cases b
  simp at hb2
  simp [hb2]

theorem safe_filename_ne (s : String) : safe_filename s ≠ "" := by
  unfold safe_filename
  by_cases h : sanitizeCore s = []
  · simp only [h, if_true]
    decide
  · simp only [h, if_false]
    intro hc
    apply h
    have := congrArg String.data hc
    simpa using this

theorem pjoin_ne_empty (a b : String) (hb : b ≠ "") : pjoin a b ≠ "" := by
  unfold pjoin
  split_ifs with h1 h2
  · exact hb
  · exact append_ne_empty_right a b hb
  · exact append_ne_empty_right (a ++ "/") b hb

theorem candidateName_ne_empty (base ext : String) (i : Nat) :
    candidateName base ext i ≠ "" := by
  unfold candidateName
  intro h
  have hlen := congrArg String.length h
  simp only [String.length_append] at hlen
  have h1 : ("_" : String).length = 1 := rfl
  have h2 : ("" : String).length = 0 := rfl
  rw [h1, h2] at hlen
  omega

theorem downloadFilename_ne (url ct : String) : downloadFilename url ct ≠ "" := by
  unfold downloadFilename
  exact safe_filename_ne _

theorem downloadPath_props (fs : List String) (url outdir ct : String) :
    downloadPath fs url outdir ct ∉ fs ∧ downloadPath fs url outdir ct ≠ "" := by
  unfold downloadPath
  refine ⟨(resolveCollision_cases fs _ _ _).1, ?_⟩
  rcases resolveCollision_cases fs (pjoin outdir (downloadFilename url ct))
      (splitextStr (pjoin outdir (downloadFilename url ct))).1
      (splitextStr (pjoin outdir (downloadFilename url ct))).2 with ⟨h1, h2, h3, h4⟩
  by_cases hp : pjoin outdir (downloadFilename url ct) ∈ fs
  · rcases h3 hp with ⟨i, _, heq, _, _⟩
    rw [heq]
    exact candidateName_ne_empty _ _ i
  · rw [h2 hp]
    exact pjoin_ne_empty _ _ (downloadFilename_ne url ct)

theorem downloadImage_fail (env : Env) (fs : List String) (url outdir e : String)
    (h : env.imgGet url = .error e) :
    downloadImage env fs url outdir = ("", fs) := by
  unfold downloadImage
  rw [h]

theorem downloadImage_writeFail (env : Env) (fs : List String) (url outdir : String)
    (hw : ∀ p, ∃ e, env.imgWrite p = .error e) :
    downloadImage env fs url outdir = ("", fs) := by
  unfold downloadImage
  split
  · rfl
  · rename_i ct _
    obtain ⟨e2, he2⟩ := hw (downloadPath fs url outdir ct)
    rw [he2]

theorem downloadImage_shape (env : Env) (fs : List String) (url outdir : String) :
    downloadImage env fs url outdir = ("", fs) ∨
      ∃ p, downloadImage env fs url outdir = (p, p :: fs) ∧ p ≠ "" ∧ p ∉ fs := by
  unfold downloadImage
  split
  · exact Or.inl rfl
  · rename_i ct _
    split
    · exact Or.inl rfl
    · right
      exact ⟨downloadPath fs url outdir ct, rfl, (downloadPath_props fs url outdir ct).2,
        (downloadPath_props fs url outdir ct).1⟩

theorem writeStep_fst (env : Env) (p : String) (l1 l2 : List String) :
    (writeStep env p l1).1 = (writeStep env p l2).1 := by
  unfold writeStep
  rcases env.write p with e | u <;> rfl

theorem writeStep_ok (env : Env) (p : String) (l : List String)
    (hw : env.write p = .ok ()) : writeStep env p l = (.ok p, l) := by
  unfold writeStep
  rw [hw]

theorem writeStep_error_msg (env : Env) (p : String) (l : List String) (e : String)
    (h : (writeStep env p l).1 = .error e) : env.write p = .error e := by
  unfold writeStep at h
  rcases hw : env.write p with e2 | u <;> rw [hw] at h
  · cases h
    rfl
  · cases h

theorem saveArticle_fst_indep (env : Env) (item : Article) (outdir fmt : String)
    (di : Bool) (fs fs2 : List String) :
    (saveArticle env fs item outdir fmt di).1 = (saveArticle env fs2 item outdir fmt di).1 := by
  unfold saveArticle
  dsimp only
  rcases h1 : env.makedirs outdir with e | u
  · rfl
  · dsimp only
    rcases h2 : (if di then env.makedirs (pjoin outdir "images") else Except.ok ()) with e | u2
    · rfl
    · dsimp only
      split_ifs <;> first | rfl | exact writeStep_fst env _ _ _

theorem saveArticle_error_origin (env : Env) (fs : List String) (item : Article)
    (outdir fmt : String) (di : Bool) (e : String)
    (h : (saveArticle env fs item outdir fmt di).1 = .error e) :
    e = "unsupported format" ∨ (∃ p, env.write p = .error e) ∨
      (∃ p, env.makedirs p = .error e) := by
  unfold saveArticle at h
  try dsimp only at h
  rcases h1 : env.makedirs outdir with e1 | u
  · rw [h1] at h
    try dsimp only at h
    cases h
    exact Or.inr (Or.inr ⟨outdir, h1⟩)
  · rw [h1] at h
    try dsimp only at h
    rcases h2 : (if di then env.makedirs (pjoin outdir "images") else Except.ok ()) with e2 | u2
    · rw [h2] at h
      try dsimp only at h
      cases h
      cases hdi : di
      · rw [hdi] at h2
        simp at h2
      · rw [hdi] at h2
        simp only [if_true] at h2
        exact Or.inr (Or.inr ⟨pjoin outdir "images", h2⟩)
    · rw [h2] at h
      try dsimp only at h
      split_ifs at h
      all_goals
        first
        | exact Or.inr (Or.inl ⟨_, writeStep_error_msg env _ _ e h⟩)
        | (cases h; exact Or.inl rfl)

theorem saveArticle_md_ok (env : Env) (fs : List String) (item : Article)
    (outdir : String) (di : Bool)
    (hm1 : env.makedirs outdir = .ok ())
    (hm2 : env.makedirs (pjoin outdir "images") = .ok ())
    (hw : ∀ p, env.write p = .ok ()) :
    ∃ p, (saveArticle env fs item outdir "md" di).1 = .ok p := by
  unfold saveArticle
  try dsimp only
  rw [hm1]
  try dsimp only
  have h2 : (if di then env.makedirs (pjoin outdir "images") else Except.ok ()) =
      Except.ok () := by
    cases di <;> simp [hm2]
  rw [h2]
  try dsimp only
  rw [if_pos rfl, writeStep_ok env _ _ (hw _)]
  exact ⟨_, rfl⟩

theorem processUrl_fst_indep (env : Env) (url outdir fmt : String) (di : Bool)
    (fs fs2 : List String) :
    (processUrl env fs url outdir fmt di).1 = (processUrl env fs2 url outdir fmt di).1 := by
  unfold processUrl
  rcases hf : env.fetch url with e | html
  · rfl
  · dsimp only
    have h := saveArticle_fst_indep env (extractArticle env.conv (env.parse html) url)
      outdir fmt di fs fs2
    rcases hs : (saveArticle env fs (extractArticle env.conv (env.parse html) url)
        outdir fmt di).1 with e2 | saved
    · rw [hs] at h
      rw [← h]
    · rw [hs] at h
      rw [← h]

theorem processUrl_record_shape (env : Env) (fs : List String) (url outdir fmt : String)
    (di : Bool) :
    ((processUrl env fs url outdir fmt di).1).url = url
    ∧ (((processUrl env fs url outdir fmt di).1).ok = true →
        ((processUrl env fs url outdir fmt di).1).path.isSome
        ∧ ((processUrl env fs url outdir fmt di).1).title.isSome
        ∧ ((processUrl env fs url outdir fmt di).1).error = none)
    ∧ (((processUrl env fs url outdir fmt di).1).ok = false →
        ((processUrl env fs url outdir fmt di).1).error.isSome
        ∧ ((processUrl env fs url outdir fmt di).1).path = none
        ∧ ((processUrl env fs url outdir fmt di).1).title = none) := by
  unfold processUrl
  rcases hf : env.fetch url with e | html
  · exact ⟨rfl, by simp [failResult], by simp [failResult]⟩
  · dsimp only
    rcases hs : (saveArticle env fs (extractArticle env.conv (env.parse html) url)
        outdir fmt di).1 with e2 | saved
    · exact ⟨rfl, by simp [failResult], by simp [failResult]⟩
    · exact ⟨rfl, by simp, by simp⟩

theorem processUrl_error_nonempty (env : Env) (henv : env.errorsNonempty)
    (fs : List String) (url outdir fmt : String) (di : Bool) :
    ∀ e, ((processUrl env fs url outdir fmt di).1).error = some e → e ≠ "" := by
  intro e he
  unfold processUrl at he
  rcases hf : env.fetch url with e0 | html
  · rw [hf] at he
    dsimp only [failResult] at he
    simp only [Option.some.injEq] at he
    subst he
    exact henv.1 url e0 hf
  · rw [hf] at he
    dsimp only at he
    rcases hs : (saveArticle env fs (extractArticle env.conv (env.parse html) url)
        outdir fmt di).1 with e2 | saved
    · rw [hs] at he
      dsimp only [failResult] at he
      simp only [Option.some.injEq] at he
      subst he
      rcases saveArticle_error_origin env fs _ outdir fmt di e2 hs with h | ⟨p, hp⟩ | ⟨p, hp⟩
      · subst h
        decide
      · exact henv.2.1 p e2 hp
      · exact henv.2.2 p e2 hp
    · rw [hs] at he
      simp at he

theorem runTasks_length (env : Env) (fs : List String) (urls : List String)
    (outdir fmt : String) (di : Bool) :
    (runTasks env fs urls outdir fmt di).1.length = urls.length := by
  induction urls generalizing fs with
  | nil => rfl
  | cons u us ih => simp [runTasks, ih]

theorem runTasks_get (env : Env) (fs : List String) (urls : List String)
    (outdir fmt : String) (di : Bool) :
    ∀ i fs2, (runTasks env fs urls outdir fmt di).1.get? i =
      (urls.get? i).map (fun u => (processUrl env fs2 u outdir fmt di).1) := by
  induction urls generalizing fs with
  | nil =>
    intro i fs2
    simp [runTasks]
  | cons u us ih =>
    intro i fs2
    cases i with
    | zero =>
      show ((processUrl env fs u outdir fmt di).1 ::
        (runTasks env (processUrl env fs u outdir fmt di).2 us outdir fmt di).1).get? 0 = _
      rw [List.get?_cons_zero, List.get?_cons_zero]
      exact congrArg some (processUrl_fst_indep env u outdir fmt di fs fs2)
    | succ j =>
      show ((processUrl env fs u outdir fmt di).1 ::
        (runTasks env (processUrl env fs u outdir fmt di).2 us outdir fmt di).1).get? (j + 1) = _
      rw [List.get?_cons_succ, List.get?_cons_succ]
      exact ih _ j fs2

theorem runTasks_mem (env : Env) (fs : List String) (urls : List String)
    (outdir fmt : String) (di : Bool) :
    ∀ r ∈ (runTasks env fs urls outdir fmt di).1,
      ∃ fs2 u, u ∈ urls ∧ r = (processUrl env fs2 u outdir fmt di).1 := by
  induction urls generalizing fs with
  | nil =>
    intro r h
    simp [runTasks] at h
  | cons u us ih =>
    intro r h
    have h2 : r = (processUrl env fs u outdir fmt di).1 ∨
        r ∈ (runTasks env (processUrl env fs u outdir fmt di).2 us outdir fmt di).1 := by
      simpa [runTasks] using h
    rcases h2 with rfl | h2
    · exact ⟨fs, u, List.mem_cons_self _ _, rfl⟩
    · rcases ih _ r h2 with ⟨fs2, u2, hu2, hr⟩
      exact ⟨fs2, u2, List.mem_cons_of_mem _ hu2, hr⟩

/-! ## C1: per-URL outcome records and failure isolation -/

/-- C1: run_tasks produces exactly one TaskResult per input URL, in
submission order; each record is a function of the environment and its
own URL alone (so one URL's failure cannot alter another's record); a
success record carries the url, path and title and no error key, a
failure record carries the url and an error and no path or title, and
every error string is nonempty whenever the environment's exception
messages are. -/
theorem process_url_isolation_spec (env : Env) (fs : List String) (urls : List String)
    (outdir fmt : String) (di : Bool) :
    (runTasks env fs urls outdir fmt di).1.length = urls.length
    ∧ (∀ i fs2, (runTasks env fs urls outdir fmt di).1.get? i =
        (urls.get? i).map (fun u => (processUrl env fs2 u outdir fmt di).1))
    ∧ (∀ fs2 u, ((processUrl env fs2 u outdir fmt di).1).url = u)
    ∧ (∀ r ∈ (runTasks env fs urls outdir fmt di).1,
        (r.ok = true → r.path.isSome ∧ r.title.isSome ∧ r.error = none)
        ∧ (r.ok = false → r.error.isSome ∧ r.path = none ∧ r.title = none))
    ∧ (env.errorsNonempty →
        ∀ r ∈ (runTasks env fs urls outdir fmt di).1, ∀ e, r.error = some e → e ≠ "") := by
  refine ⟨runTasks_length env fs urls outdir fmt di, runTasks_get env fs urls outdir fmt di,
    ?_, ?_, ?_⟩
  · intro fs2 u
    exact (processUrl_record_shape env fs2 u outdir fmt di).1
  · intro r hr
    rcases runTasks_mem env fs urls outdir fmt di r hr with ⟨fs2, u, _, rfl⟩
    exact ⟨(processUrl_record_shape env fs2 u outdir fmt di).2.1,
      (processUrl_record_shape env fs2 u outdir fmt di).2.2⟩
  · intro henv r hr e he
    rcases runTasks_mem env fs urls outdir fmt di r hr with ⟨fs2, u, _, rfl⟩
    exact processUrl_error_nonempty env henv fs2 u outdir fmt di e he

/-- Witness for C1: a two-URL batch yields two records and the failing
URL's record carries the HTTP error. -/
theorem process_url_isolation_spec_witness :
    (runTasks envEx [] ["http://good", "http://bad"] "out" "md" false).1.length = 2
    ∧ (runTasks envEx [] ["http://good", "http://bad"] "out" "md" false).1.get? 1 =
      some (failResult "http://bad" "404 Client Error") := by
  constructor
  · exact (process_url_isolation_spec envEx [] ["http://good", "http://bad"]
      "out" "md" false).1
  · rw [(process_url_isolation_spec envEx [] ["http://good", "http://bad"]
      "out" "md" false).2.1 1 []]
    rfl

/-! ## C9: image download failures are absorbed -/

theorem localize_id_of_imgFail (env : Env) (h : env.imgAllFail)
    (outdir imagesOutdir : String) :
    (∀ fs n, localizeNode env outdir imagesOutdir fs n = (n, fs))
    ∧ (∀ fs ns, localizeList env outdir imagesOutdir fs ns = (ns, fs)) := by
  refine localizeNode.mutual_induct env outdir imagesOutdir
    (fun fs n => localizeNode env outdir imagesOutdir fs n = (n, fs))
    (fun fs ns => localizeList env outdir imagesOutdir fs ns = (ns, fs))
    ?_ ?_ ?_ ?_ ?_ ?_ ?_
  · intro fs s
    rfl
  · intro fs a c hsrc ih
    simp [localizeNode, hsrc, ih]
  · intro fs a c hsrc ih
    simp [localizeNode, hsrc, ih]
  · intro fs a c s hsrc hne dl ih
    obtain ⟨e, he⟩ := h s
    have hdl : downloadImage env fs s imagesOutdir = ("", fs) :=
      downloadImage_fail env fs s imagesOutdir e he
    have hdl2 : dl = ("", fs) := hdl
    rw [hdl2] at ih
    simp [localizeNode, hsrc, hne, hdl, ih]
  · intro fs t a c ht ih
    simp [localizeNode, ht, ih]
  · intro fs
    rfl
  · intro fs n ns r1 ih1 ih2
    have hr1 : r1 = (n, fs) := ih1
    rw [hr1] at ih2
    simp [localizeList, ih1, ih2]

theorem processUrl_ok_of_success (env : Env) (fs : List String) (url outdir html : String)
    (di : Bool) (hf : env.fetch url = .ok html)
    (hm1 : env.makedirs outdir = .ok ())
    (hm2 : env.makedirs (pjoin outdir "images") = .ok ())
    (hw : ∀ p, env.write p = .ok ()) :
    ((processUrl env fs url outdir "md" di).1).ok = true := by
  unfold processUrl
  rw [hf]
  dsimp only
  obtain ⟨p, hp⟩ := saveArticle_md_ok env fs
    (extractArticle env.conv (env.parse html) url) outdir di hm1 hm2 hw
  rw [hp]

/-- C9: a failed image download is absorbed inside the localization loop:
with every download failing the content markup and the file list are left
entirely unchanged (each reference keeps its original remote URL); a
single image whose download returns the empty sentinel keeps its src
attribute while a successful download rewrites src to the slash-normalized
path relative to the output directory; and the task's record still has
ok true whenever fetch, directory creation and the article write
succeed, regardless of image downloads. -/
theorem image_failure_nonfatal_spec (env : Env) :
    (env.imgAllFail → ∀ outdir imagesOutdir fs ns,
      localizeList env outdir imagesOutdir fs ns = (ns, fs))
    ∧ (∀ outdir imagesOutdir fs a s, getAttr a "src" = some s → s ≠ "" →
        downloadImage env fs s imagesOutdir = ("", fs) →
        localizeNode env outdir imagesOutdir fs (.elem "img" a []) =
          (.elem "img" a [], fs))
    ∧ (∀ outdir imagesOutdir fs a s p, getAttr a "src" = some s → s ≠ "" →
        downloadImage env fs s imagesOutdir = (p, p :: fs) → p ≠ "" →
        localizeNode env outdir imagesOutdir fs (.elem "img" a []) =
          (.elem "img" (setAttr a "src" (replaceBackslash (relpath env.cwd p outdir))) [],
            p :: fs))
    ∧ (∀ fs url outdir html di, env.fetch url = .ok html →
        env.makedirs outdir = .ok () → env.makedirs (pjoin outdir "images") = .ok () →
        (∀ q, env.write q = .ok ()) →
        ((processUrl env fs url outdir "md" di).1).ok = true) := by
  refine ⟨?_, ?_, ?_, ?_⟩
  · intro h outdir imagesOutdir fs ns
    exact (localize_id_of_imgFail env h outdir imagesOutdir).2 fs ns
  · intro outdir imagesOutdir fs a s hsrc hne hdl
    simp [localizeNode, hsrc, hne, hdl, localizeList]
  · intro outdir imagesOutdir fs a s p hsrc hne hdl hp
    simp [localizeNode, hsrc, hne, hdl, hp, localizeList]
  · intro fs url outdir html di hf hm1 hm2 hw
    exact processUrl_ok_of_success env fs url outdir html di hf hm1 hm2 hw

/-- Witness for C9: with every image download timing out the task still
succeeds. -/
theorem image_failure_nonfatal_spec_witness :
    ((processUrl envImgFail [] "http://u" "out" "md" true).1).ok = true :=
  (image_failure_nonfatal_spec envImgFail).2.2.2 [] "http://u" "out" "<html>" true
    rfl rfl rfl (fun _ => rfl)

/-! ## C10: download_image totality over all failure kinds -/

/-- C10: download_image never lets a failure escape: it returns the
written path on success (a fresh nonempty path recorded in the file list)
and the empty string on any failure, including a failing image fetch and
a failing filesystem write; consequently a write failure while saving an
image leaves the task's record successful when the remaining stages
succeed. -/
theorem download_image_total_spec (env : Env) (fs : List String) (url outdir : String) :
    (downloadImage env fs url outdir = ("", fs) ∨
      ∃ p, downloadImage env fs url outdir = (p, p :: fs) ∧ p ≠ "" ∧ p ∉ fs)
    ∧ (∀ e, env.imgGet url = .error e → downloadImage env fs url outdir = ("", fs))
    ∧ ((∀ p, ∃ e, env.imgWrite p = .error e) →
        downloadImage env fs url outdir = ("", fs))
    ∧ (∀ html di, env.fetch url = .ok html →
        env.makedirs outdir = .ok () → env.makedirs (pjoin outdir "images") = .ok () →
        (∀ q, env.write q = .ok ()) → (∀ p, ∃ e, env.imgWrite p = .error e) →
        ((processUrl env fs url outdir "md" di).1).ok = true) := by
  refine ⟨downloadImage_shape env fs url outdir, ?_, ?_, ?_⟩
  · intro e he
    exact downloadImage_fail env fs url outdir e he
  · intro hw
    exact downloadImage_writeFail env fs url outdir hw
  · intro html di hf hm1 hm2 hw _
    exact processUrl_ok_of_success env fs url outdir html di hf hm1 hm2 hw

/-- Witness for C10: a disk-full image write is absorbed and the task
still succeeds. -/
theorem download_image_total_spec_witness :
    downloadImage envDiskFull [] "http://img.example/b.jpg" "out/images" = ("", [])
    ∧ ((processUrl envDiskFull [] "http://u" "out" "md" true).1).ok = true := by
  constructor
  · exact (download_image_total_spec envDiskFull [] "http://img.example/b.jpg"
      "out/images").2.2.1
      (fun p => ⟨"[Errno 28] No space left on device", rfl⟩)
  · exact (download_image_total_spec envDiskFull [] "http://u" "out").2.2.2
      "<html>" true rfl rfl rfl (fun _ => rfl)
      (fun p => ⟨"[Errno 28] No space left on device", rfl⟩)

end ExtractTool
